import Mathlib

/-!
Verification of the changelog-generation action (`generate-changelog`).

The TypeScript sources are shallowly embedded here:
* `file-utils.ts` (`extractVersionSection`, `buildChangelogContent`),
* `version-utils.ts` (`parseVersionFromTextFile`),
* `git-utils.ts` (`getNewCommits`),
* `index.ts` (`run`).

Strings are modelled as `List Char`.  JavaScript's `split("\n")` /
`join("\n")` pair is modelled by `splitLines` / `joinLines`; the
character-offset arithmetic of the replacement branch of
`buildChangelogContent` happens on line boundaries, so it is expressed
through `take` / `drop` on the line list, which is extensionally the same
decomposition of the string.

JavaScript regular expressions are embedded as follows.

* The version-header pattern built by the source,
  `new RegExp("^## " + escaped + "\\s*$", "m")` where `escaped` is the
  version with every pattern-special character backslash-escaped, is
  modelled by `lineMatchesVersionHeader`.  The escaping function
  (`escapeRegex`) and a tiny pattern interpreter (`parsePat`,
  `matchAtoms`) are embedded exactly, so that the literal-matching
  guarantee of the escaping is a provable statement rather than an
  assumption.  A multiline `$` together with a greedy `\s*` may swallow
  whitespace beyond the header's own line; as that whitespace can never
  contain a `## ` line start and every consumer either trims it or only
  uses the next section's start offset, matching per line is
  output-equivalent, which is how `lineMatchesVersionHeader` is applied
  (to single lines produced by `splitLines`, and with versions that
  contain no newline, which is all the callers ever pass).
* The entry-header pattern `/^##\s+(.+?)(?:\n|$)/m` of
  `buildChangelogContent` is modelled by `scanFromFuel` /
  `matchVersionCapture`, including the backtracking behaviour of the
  greedy `\s+` followed by the lazy dot (which cannot match a newline).

Whitespace: the embeddings of `trim`, `\s` and `\s+` use the four
whitespace characters (space, tab, newline, carriage return) that can
occur in the data handled by this action.
-/

namespace ChangelogAction

/-- Strings are lists of characters. -/
abbrev Str := List Char

/-- Whitespace test used by the embeddings of `trim` and of `\s`. -/
def isWs (c : Char) : Bool :=
  c == ' ' || c == '\t' || c == '\n' || c == '\r'

/-- JavaScript `String.prototype.trim`: strip whitespace from both ends. -/
def trimStr (s : Str) : Str :=
  ((s.dropWhile isWs).reverse.dropWhile isWs).reverse

/-- JavaScript `content.split("\n")`: every piece between newline
separators, including empty pieces and the piece after a trailing
newline; `"".split("\n")` is `[""]`. -/
def splitLines : Str → List Str
  | [] => [[]]
  | c :: t =>
    if c = '\n' then [] :: splitLines t
    else
      match splitLines t with
      | [] => [[c]]
      | h :: r => (c :: h) :: r

/-- JavaScript `lines.join("\n")`. -/
def joinLines : List Str → Str
  | [] => []
  | [l] => l
  | l :: h :: t => l ++ '\n' :: joinLines (h :: t)

/-- JavaScript `hay.includes(needle)`: substring containment. -/
def containsSub : Str → Str → Bool
  | [], needle => needle.isEmpty
  | hay@(_ :: t), needle => needle.isPrefixOf hay || containsSub t needle

/-- The characters escaped by `version.replace(/[.*+?^$\x7b\x7d()|[\]\\]/g, "\\$&")`
in `file-utils.ts`; this is the complete set of characters that carry
special meaning somewhere in a JavaScript pattern. -/
def specialChars : List Char :=
  ['.', '*', '+', '?', '^', '$', '\x7b', '\x7d', '(', ')', '|', '[', ']', '\\']

/-- Whether `c` is special in a JavaScript pattern. -/
def isSpecial (c : Char) : Bool := specialChars.contains c

/-- The escaping `replace(/[.*+?^$\x7b\x7d()|[\]\\]/g, "\\$&")`: prepend a
backslash to every special character. -/
def escapeRegex : Str → Str
  | [] => []
  | c :: t => if isSpecial c then '\\' :: c :: escapeRegex t else c :: escapeRegex t

/-- One atom of a compiled pattern: a literal character, or the dot
(any character except newline). -/
inductive RAtom where
  | lit : Char → RAtom
  | anyChar : RAtom
deriving DecidableEq

/-- Compile the pattern text standing between `^## ` and `\s*$` in the
header pattern.  A backslash escapes the next character into a literal;
an unescaped dot is the wildcard; any other unescaped special character
would need pattern machinery that the escaped patterns built by the
source never produce, so compilation fails on it. -/
def parsePat : Str → Option (List RAtom)
  | [] => some []
  | c :: t =>
    if c = '\\' then
      match t with
      | [] => none
      | d :: t2 => (parsePat t2).map (fun as => RAtom.lit d :: as)
    else if c = '.' then (parsePat t).map (fun as => RAtom.anyChar :: as)
    else if isSpecial c then none
    else (parsePat t).map (fun as => RAtom.lit c :: as)

/-- Match a compiled atom sequence against the front of `s`, returning
the unconsumed remainder. -/
def matchAtoms : List RAtom → Str → Option Str
  | [], s => some s
  | RAtom.lit _ :: _, [] => none
  | RAtom.lit c :: as, d :: s => if c = d then matchAtoms as s else none
  | RAtom.anyChar :: _, [] => none
  | RAtom.anyChar :: as, d :: s => if d = '\n' then none else matchAtoms as s

/-- Test of the header pattern `^## <escaped version>\s*$` (flag `m`)
against one line: the line must start with `## `, continue with a match
of the escaped version, and end in whitespace only. -/
def lineMatchesVersionHeader (version line : Str) : Bool :=
  if ("## ".toList).isPrefixOf line then
    match parsePat (escapeRegex version) with
    | some atoms =>
      match matchAtoms atoms (line.drop 3) with
      | some rest => rest.all isWs
      | none => false
    | none => false
  else false

/-- Largest backtracking position for the `\s+` of the entry-header
pattern when the whole remainder is whitespace: the greatest index `k`
with `1 ≤ k` at which a character other than a newline stands (the lazy
dot can still consume whitespace that is not a newline). -/
def lastNonNlIdx (rest : Str) : Option Nat :=
  ((List.range rest.length).filter
    (fun k => decide (1 ≤ k) && (rest.getD k '\n' != '\n'))).getLast?

/-- Attempt of `\s+(.+?)(?:\n|$)` at the text standing after a `##` that
sits at a line start, returning the captured group.  The greedy `\s+`
first takes the maximal whitespace run; the lazy `(.+?)(?:\n|$)` then
captures up to the next newline or the end, so the capture is nonempty
exactly when a non-newline character follows the chosen run.  When the
whitespace run reaches the end of the text, the engine backtracks into
the run, whose non-newline whitespace the dot may still match. -/
def matchVersionCapture (rest : Str) : Option Str :=
  let n := (rest.takeWhile isWs).length
  if n = 0 then none
  else if n < rest.length then some ((rest.drop n).takeWhile (fun c => c != '\n'))
  else
    match lastNonNlIdx rest with
    | some k => some ((rest.drop k).takeWhile (fun c => c != '\n'))
    | none => none

/-- Scan for the first match of `/^##\s+(.+?)(?:\n|$)/m`: at each line
start, try `##` followed by `matchVersionCapture`; on failure move past
the next newline.  The fuel argument only serves structural recursion
and is always supplied larger than the text length. -/
def scanFromFuel : Nat → Str → Option Str
  | 0, _ => none
  | fuel + 1, s =>
    match (if ("##".toList).isPrefixOf s then matchVersionCapture (s.drop 2) else none) with
    | some cap => some cap
    | none =>
      match s.dropWhile (fun c => c != '\n') with
      | [] => none
      | _ :: t => scanFromFuel fuel t

/-- `newEntry.match(/^##\s+(.+?)(?:\n|$)/m)` followed by
`versionMatch[1].trim()` in `buildChangelogContent`; `none` models a
`null` version. -/
def extractEntryVersion (newEntry : Str) : Option Str :=
  (scanFromFuel (newEntry.length + 1) newEntry).map trimStr

/-- Result of `extractVersionSection`: `thrown` models the thrown error
on an empty version, `notFound` models `null`. -/
inductive ExtractResult where
  | thrown : ExtractResult
  | notFound : ExtractResult
  | found : Str → ExtractResult
deriving DecidableEq

/-- `extractVersionSection` of `file-utils.ts`: locate the first line
matching the version-header pattern, then return the text between the
end of that line and the next line starting with `## ` (or the end of
the document), trimmed. -/
def extractVersionSection (changelogContent version : Str) : ExtractResult :=
  if changelogContent.isEmpty then ExtractResult.notFound
  else if version.isEmpty then ExtractResult.thrown
  else
    let ls := splitLines changelogContent
    match List.findIdx? (lineMatchesVersionHeader version) ls with
    | none => ExtractResult.notFound
    | some i =>
      let after := ls.drop (i + 1)
      match List.findIdx? (fun l => ("## ".toList).isPrefixOf l) after with
      | none => ExtractResult.found (trimStr (joinLines after))
      | some j => ExtractResult.found (trimStr (joinLines (after.take j)))

/-- `readChangelogVersionSection` of `file-utils.ts`; `content?` is the
file's content when it exists and is readable.  Any throw inside the
`try` block (including the one of `extractVersionSection`) yields
`null`. -/
def readChangelogVersionSection (content? : Option Str) (version : Str) : Option Str :=
  match content? with
  | none => none
  | some c =>
    match extractVersionSection c version with
    | ExtractResult.found b => some b
    | _ => none

/-- The `while (insertIndex < lines.length && lines[insertIndex].trim() === "")
insertIndex++` loop: skip blank lines, `rest` being `lines` from position
`i` on. -/
def skipBlanksAux : List Str → Nat → Nat
  | [], i => i
  | l :: t, i => if trimStr l = [] then skipBlanksAux t (i + 1) else i

/-- JavaScript `lines.splice(i, 0, x)`. -/
def insertAt (ls : List Str) (i : Nat) (x : Str) : List Str :=
  ls.take i ++ x :: ls.drop i

/-- The insertion branch of `buildChangelogContent` (version absent from
the document): insert the trimmed entry after the first `# `-line and
the blank lines following it, or prepend a synthesized title when no
`# `-line exists. -/
def insertSection (existingContent newEntry : Str) : Str :=
  let ls := splitLines existingContent
  match List.findIdx? (fun l => ("# ".toList).isPrefixOf l) ls with
  | some h =>
    let idx := skipBlanksAux (ls.drop (h + 1)) (h + 1)
    joinLines (insertAt ls idx (trimStr newEntry))
  | none =>
    "# Changelog\n\n".toList ++ trimStr newEntry ++ "\n\n".toList ++ existingContent

/-- The fallback branch of `buildChangelogContent` (version substring
present but no line matches the header pattern): splice the trimmed
entry after the title line, or at position 0 when no `# `-line exists. -/
def spliceFallback (existingContent newEntry : Str) : Str :=
  let ls := splitLines existingContent
  let start :=
    match List.findIdx? (fun l => ("# ".toList).isPrefixOf l) ls with
    | some h => h + 1
    | none => 0
  joinLines (insertAt ls (skipBlanksAux (ls.drop start) start) (trimStr newEntry))

/-- `buildChangelogContent` of `file-utils.ts`.  `existing` is the file
content when the file exists and is readable (`none` otherwise).  The
replacement branch rebuilds
`existingContent.substring(0, match.index) + newEntry.trim() + "\n\n" +
existingContent.substring(endOfSection)` on the line decomposition: the
prefix is the lines before the matched header (with their terminating
newline when nonempty), `endOfSection` is the start of the first
following `## `-line or the end of the document. -/
def buildChangelogContent (existing : Option Str) (newEntry : Str) : Str :=
  let existingContent := existing.getD []
  let version := extractEntryVersion newEntry
  if existing.isNone || (trimStr existingContent).isEmpty then
    "# Changelog\n\n".toList ++ trimStr newEntry ++ "\n\n".toList
  else
    match version with
    | some v =>
      if !v.isEmpty && containsSub existingContent ("## ".toList ++ v) then
        match List.findIdx? (lineMatchesVersionHeader v) (splitLines existingContent) with
        | some i =>
          let ls := splitLines existingContent
          let after := ls.drop (i + 1)
          let tailPart :=
            match List.findIdx? (fun l => ("## ".toList).isPrefixOf l) after with
            | some j => joinLines (after.drop j)
            | none => []
          joinLines (ls.take i) ++ (if i = 0 then [] else ['\n']) ++
            trimStr newEntry ++ "\n\n".toList ++ tailPart
        | none => spliceFallback existingContent newEntry
      else insertSection existingContent newEntry
    | none => insertSection existingContent newEntry

/-- `parseVersionFromTextFile` of `version-utils.ts`: trim the first
line (`lines[0]`); `none` models the thrown error when that is empty. -/
def parseVersionFromTextFile (content : Str) : Option Str :=
  let firstLine := trimStr ((splitLines content).headD [])
  if firstLine.isEmpty then none else some firstLine

/-- The all-zero commit reference sent for a branch-creating push. -/
def zeroSha : Str := List.replicate 40 '0'

/-- `getNewCommits` of `git-utils.ts` over abstract provider calls.
`before` / `after` model `payload.before` / `payload.after`, with `none`
for an absent or `null` field; the emptiness tests mirror JavaScript
falsiness of the empty string. -/
def getNewCommits {κ : Type} (listPRCommits : Nat → Except Str (List κ))
    (getCommit : Str → Except Str κ)
    (compareCommits : Str → Str → Except Str (List κ))
    (prNumber : Option Nat) (before after : Option Str)
    (isPREvent : Bool) : Except Str (List κ) :=
  if isPREvent then
    match prNumber with
    | none => Except.error ("PR number not found in context".toList)
    | some n => listPRCommits n
  else
    match after with
    | none => Except.error ("After SHA not found in push payload".toList)
    | some a =>
      if a.isEmpty then Except.error ("After SHA not found in push payload".toList)
      else
        match before with
        | none => (getCommit a).map (fun c => [c])
        | some b =>
          if b.isEmpty || b == zeroSha then (getCommit a).map (fun c => [c])
          else compareCommits b a

/-- The environment-variable inputs read by `run` in `index.ts`. -/
structure RunEnv where
  openrouterApiKey : Option Str
  githubToken : Option Str
  aiModel : Option Str
  changelogPath : Option Str
  versionFile : Option Str

/-- The trigger context read from `github.context`. -/
structure GhContext where
  eventName : Str
  refName : Str
  prNumber : Option Nat
  pushBefore : Option Str
  pushAfter : Option Str

/-- The external collaborators of `run`, over an abstract commit type
`κ`: the version reader, the commit-history provider, the message
accessor `commit.commit.message`, the changelog file's content (when the
file exists and is readable), the narrative generator and the publisher
(update mode / create mode). -/
structure RunDeps (κ : Type) where
  readVersion : Str → Except Str Str
  listPRCommits : Nat → Except Str (List κ)
  getCommit : Str → Except Str κ
  compareCommits : Str → Str → Except Str (List κ)
  commitMessage : κ → Str
  existingChangelog : Option Str
  generate : List Str → Str → Option Str → Except Str Str
  publishUpdate : Nat → Str → Str → Except Str Nat
  publishCreate : Str → Str → Except Str Nat

/-- Observable outcome of one `run`: the `core.setFailed` message if
any, the `core.setOutput` calls in order, and which collaborator stages
were reached (commit fetching, narrative generation, changelog build,
publishing). -/
structure RunResult where
  failedWith : Option Str
  outputs : List (Str × Str)
  fetchedCommits : Bool
  generatedNarrative : Bool
  builtChangelog : Bool
  published : Bool
deriving DecidableEq

/-- `run` of `index.ts`: input validation, version read, trigger
dispatch, commit fetching, section read, narrative generation, changelog
build, and publishing, with every thrown error caught into
`core.setFailed`. -/
def run {κ : Type} (env : RunEnv) (ctx : GhContext) (deps : RunDeps κ) : RunResult :=
  match env.openrouterApiKey with
  | none => ⟨some ("OPENROUTER_API_KEY is required".toList), [], false, false, false, false⟩
  | some _ =>
  match env.githubToken with
  | none => ⟨some ("GITHUB_TOKEN is required".toList), [], false, false, false, false⟩
  | some _ =>
  match env.versionFile with
  | none => ⟨some ("VERSION_FILE is required".toList), [], false, false, false, false⟩
  | some vf =>
  match deps.readVersion vf with
  | Except.error e => ⟨some e, [], false, false, false, false⟩
  | Except.ok version =>
  let isPREvent := ctx.eventName == "pull_request".toList
  let isDirectPush := ctx.eventName == "push".toList &&
    (ctx.refName == "refs/heads/main".toList || ctx.refName == "refs/heads/master".toList)
  if !isPREvent && !isDirectPush then
    ⟨none, [("changelog-updated".toList, "false".toList)], false, false, false, false⟩
  else
    match getNewCommits deps.listPRCommits deps.getCommit deps.compareCommits
        ctx.prNumber ctx.pushBefore ctx.pushAfter isPREvent with
    | Except.error e => ⟨some e, [], true, false, false, false⟩
    | Except.ok commits =>
      if commits.isEmpty then
        ⟨none, [("changelog-updated".toList, "false".toList)], true, false, false, false⟩
      else
        let currentVersionContent := readChangelogVersionSection deps.existingChangelog version
        match deps.generate (commits.map deps.commitMessage) version currentVersionContent with
        | Except.error e => ⟨some e, [], true, true, false, false⟩
        | Except.ok changelogEntry =>
          let updatedContent := buildChangelogContent deps.existingChangelog changelogEntry
          if isPREvent then
            match ctx.prNumber with
            | none =>
              ⟨some ("PR number not found in context".toList), [], true, true, true, false⟩
            | some pr =>
              match deps.publishUpdate pr (env.changelogPath.getD ("CHANGELOG.md".toList))
                  updatedContent with
              | Except.error e => ⟨some e, [], true, true, true, true⟩
              | Except.ok _ =>
                ⟨none, [("pr-number".toList, (toString pr).toList),
                  ("changelog-updated".toList, "true".toList)], true, true, true, true⟩
          else
            match deps.publishCreate (env.changelogPath.getD ("CHANGELOG.md".toList))
                updatedContent with
            | Except.error e => ⟨some e, [], true, true, true, true⟩
            | Except.ok newPr =>
              ⟨none, [("pr-number".toList, (toString newPr).toList),
                ("changelog-updated".toList, "true".toList)], true, true, true, true⟩

/-- Well-formed changelog line structure, as produced by this action
itself: either a title line (starting `# `) followed by blank lines and
then either nothing or content starting at a `## ` section header, or a
document with no title line whose first line is a `## ` section
header. -/
def WfDocLines (ls : List Str) : Prop :=
  (∃ title blanks secs, ls = title :: blanks ++ secs ∧
    ("# ".toList).isPrefixOf title = true ∧ (∀ l ∈ blanks, trimStr l = []) ∧
    (secs = [] ∨ ∃ s ss, secs = s :: ss ∧ ("## ".toList).isPrefixOf s = true)) ∨
  ((∀ l ∈ ls, ("# ".toList).isPrefixOf l = false) ∧
    ∃ s ss, ls = s :: ss ∧ ("## ".toList).isPrefixOf s = true)

/-! Toolkit: lines -/

theorem splitLines_ne_nil (s : Str) : splitLines s ≠ [] := by
  induction s with
  | nil => simp [splitLines]
  | cons c t ih =>
    simp only [splitLines]
    split
    · simp
    · split
      · simp
      · simp

theorem noNl_splitLines (s : Str) : ∀ l ∈ splitLines s, '\n' ∉ l := by
  induction s with
  | nil => intro l hl; simp [splitLines] at hl; simp [hl]
  | cons c t ih =>
    intro l hl
    simp only [splitLines] at hl
    by_cases hc : c = '\n'
    · simp [hc] at hl
      rcases hl with h | h
      · simp [h]
      · exact ih l h
    · simp [hc] at hl
      rcases hsp : splitLines t with _ | ⟨h0, r⟩
      · exact absurd hsp (splitLines_ne_nil t)
      · rw [hsp] at hl
        simp at hl
        rcases hl with h | h
        · subst h
          intro hmem
          rcases List.mem_cons.mp hmem with h1 | h1
          · exact hc h1.symm
          · exact ih h0 (by simp [hsp]) h1
        · exact ih l (by simp [hsp, h])

theorem joinLines_cons_cons (a b : Str) (t : List Str) :
    joinLines (a :: b :: t) = a ++ '\n' :: joinLines (b :: t) := rfl

theorem joinLines_splitLines (s : Str) : joinLines (splitLines s) = s := by
  induction s with
  | nil => rfl
  | cons c t ih =>
    simp only [splitLines]
    by_cases hc : c = '\n'
    · subst hc
      rw [if_pos rfl]
      rcases hsp : splitLines t with _ | ⟨h0, r⟩
      · exact absurd hsp (splitLines_ne_nil t)
      · rw [hsp] at ih
        rw [joinLines_cons_cons, ih]
        simp
    · rw [if_neg hc]
      rcases hsp : splitLines t with _ | ⟨h0, r⟩
      · exact absurd hsp (splitLines_ne_nil t)
      · rw [hsp] at ih
        rcases r with _ | ⟨r0, rr⟩
        · simpa [joinLines] using congrArg (c :: ·) ih
        · rw [joinLines_cons_cons]
          rw [joinLines_cons_cons] at ih
          simpa using congrArg (c :: ·) ih

theorem splitLines_noNl_single (l : Str) (h : '\n' ∉ l) : splitLines l = [l] := by
  induction l with
  | nil => rfl
  | cons c t ih =>
    have hc : c ≠ '\n' := fun hcc => h (by simp [hcc])
    have ht : '\n' ∉ t := fun htt => h (by simp [htt])
    simp only [splitLines, if_neg hc, ih ht]

theorem splitLines_append_cons (l r : Str) (h : '\n' ∉ l) :
    splitLines (l ++ '\n' :: r) = l :: splitLines r := by
  induction l with
  | nil => simp [splitLines]
  | cons c t ih =>
    have hc : c ≠ '\n' := fun hcc => h (by simp [hcc])
    have ht : '\n' ∉ t := fun htt => h (by simp [htt])
    simp only [List.cons_append, splitLines, if_neg hc]
    rw [show t ++ '\n' :: r = List.append t ('\n' :: r) from rfl] at ih
    rw [ih ht]

theorem splitLines_joinLines (ls : List Str) (hnl : ∀ l ∈ ls, '\n' ∉ l)
    (hne : ls ≠ []) : splitLines (joinLines ls) = ls := by
  induction ls with
  | nil => exact absurd rfl hne
  | cons l t ih =>
    rcases t with _ | ⟨h0, r⟩
    · exact splitLines_noNl_single l (hnl l (by simp))
    · rw [joinLines_cons_cons, splitLines_append_cons _ _ (hnl l (by simp))]
      rw [ih (fun x hx => hnl x (by simp [hx])) (by simp)]

theorem joinLines_append (x y : List Str) (hx : x ≠ []) (hy : y ≠ []) :
    joinLines (x ++ y) = joinLines x ++ '\n' :: joinLines y := by
  induction x with
  | nil => exact absurd rfl hx
  | cons a t ih =>
    rcases t with _ | ⟨b, r⟩
    · rcases y with _ | ⟨y0, ys⟩
      · exact absurd rfl hy
      · simp [joinLines_cons_cons, joinLines]
    · have h1 : (a :: b :: r) ++ y = a :: b :: (r ++ y) := by simp
      have h2 := ih (by simp)
      rw [List.cons_append] at h2
      rw [h1, joinLines_cons_cons a b (r ++ y), joinLines_cons_cons a b r, h2]
      simp

theorem infix_joinLines_of_mem (l : Str) (ls : List Str) (h : l ∈ ls) :
    l <:+: joinLines ls := by
  induction ls with
  | nil => simp at h
  | cons a t ih =>
    rcases t with _ | ⟨b, r⟩
    · have h1 : l = a := by simpa using h
      subst h1
      exact List.infix_refl l
    · rw [joinLines_cons_cons]
      rcases List.mem_cons.mp h with h1 | h1
      · subst h1
        exact (List.prefix_append l ('\n' :: joinLines (b :: r))).isInfix
      · refine (ih h1).trans ?_
        exact ⟨a ++ ['\n'], [], by simp⟩

theorem mem_char_joinLines (c : Char) (l : Str) (ls : List Str)
    (hc : c ∈ l) (hl : l ∈ ls) : c ∈ joinLines ls :=
  (infix_joinLines_of_mem l ls hl).sublist.subset hc

/-! Toolkit: whitespace and trimming -/

theorem dropWhile_append_of_all {α : Type} (p : α → Bool) (w x : List α)
    (h : ∀ a ∈ w, p a = true) : (w ++ x).dropWhile p = x.dropWhile p := by
  induction w with
  | nil => simp
  | cons a t ih =>
    rw [List.cons_append, List.dropWhile_cons, if_pos (h a (by simp))]
    exact ih (fun b hb => h b (by simp [hb]))

theorem takeWhile_append_of_all {α : Type} (p : α → Bool) (w x : List α)
    (h : ∀ a ∈ w, p a = true) : (w ++ x).takeWhile p = w ++ x.takeWhile p := by
  induction w with
  | nil => simp
  | cons a t ih =>
    rw [List.cons_append, List.takeWhile_cons, if_pos (h a (by simp))]
    rw [ih (fun b hb => h b (by simp [hb])), List.cons_append]

theorem dropWhile_eq_nil_of_all {α : Type} (p : α → Bool) (w : List α)
    (h : ∀ a ∈ w, p a = true) : w.dropWhile p = [] := by
  have := dropWhile_append_of_all p w ([] : List α) h
  simpa using this

theorem trimStr_append_ws_left (w x : Str) (h : ∀ c ∈ w, isWs c = true) :
    trimStr (w ++ x) = trimStr x := by
  unfold trimStr
  rw [dropWhile_append_of_all isWs w x h]

theorem trimStr_append_ws_right (x w : Str) (h : ∀ c ∈ w, isWs c = true) :
    trimStr (x ++ w) = trimStr x := by
  unfold trimStr
  rw [List.dropWhile_append]
  by_cases he : (x.dropWhile isWs).isEmpty
  · rw [if_pos he]
    rw [dropWhile_eq_nil_of_all isWs w h]
    rw [List.isEmpty_iff] at he
    rw [he]
  · rw [if_neg he]
    rw [List.reverse_append]
    rw [dropWhile_append_of_all isWs w.reverse _
      (fun c hc => h c (List.mem_reverse.mp hc))]

theorem mem_dropWhile_of_mem {α : Type} (p : α → Bool) (l : List α) (c : α)
    (hc : c ∈ l) (hp : p c = false) : c ∈ l.dropWhile p := by
  induction l with
  | nil => simp at hc
  | cons a t ih =>
    rw [List.dropWhile_cons]
    by_cases ha : p a = true
    · rw [if_pos ha]
      rcases List.mem_cons.mp hc with h1 | h1
      · subst h1; rw [ha] at hp; cases hp
      · exact ih h1
    · rw [if_neg ha]
      exact hc

theorem trimStr_eq_nil_iff (s : Str) : trimStr s = [] ↔ ∀ c ∈ s, isWs c = true := by
  constructor
  · intro h c hc
    by_contra hw
    have hw' : isWs c = false := by
      cases hb : isWs c
      · rfl
      · exact absurd hb hw
    have h1 : c ∈ s.dropWhile isWs := mem_dropWhile_of_mem isWs s c hc hw'
    have h2 : c ∈ (s.dropWhile isWs).reverse := List.mem_reverse.mpr h1
    have h3 : c ∈ (s.dropWhile isWs).reverse.dropWhile isWs :=
      mem_dropWhile_of_mem isWs _ c h2 hw'
    have h4 : c ∈ trimStr s := by
      unfold trimStr
      exact List.mem_reverse.mpr h3
    rw [h] at h4
    simp at h4
  · intro h
    unfold trimStr
    rw [dropWhile_eq_nil_of_all isWs s h]
    rfl

theorem trimStr_ne_nil_of_mem (s : Str) (c : Char) (hc : c ∈ s)
    (hw : isWs c = false) : trimStr s ≠ [] := by
  intro h
  have := (trimStr_eq_nil_iff s).mp h c hc
  rw [this] at hw
  cases hw

theorem joinLines_all_ws (pad : List Str) (h : ∀ l ∈ pad, ∀ c ∈ l, isWs c = true) :
    ∀ c ∈ joinLines pad, isWs c = true := by
  induction pad with
  | nil => simp [joinLines]
  | cons a t ih =>
    rcases t with _ | ⟨b, r⟩
    · intro c hc
      exact h a (by simp) c (by simpa [joinLines] using hc)
    · rw [joinLines_cons_cons]
      intro c hc
      rcases List.mem_append.mp hc with h1 | h1
      · exact h a (by simp) c h1
      · rcases List.mem_cons.mp h1 with h2 | h2
        · subst h2; rfl
        · exact ih (fun l hl => h l (by simp [hl])) c h2

theorem trimStr_joinLines_append_blanks (x pad : List Str)
    (h : ∀ l ∈ pad, trimStr l = []) :
    trimStr (joinLines (x ++ pad)) = trimStr (joinLines x) := by
  have hws : ∀ l ∈ pad, ∀ c ∈ l, isWs c = true :=
    fun l hl => (trimStr_eq_nil_iff l).mp (h l hl)
  rcases List.eq_nil_or_concat x with hx | _
  · subst hx
    simp only [List.nil_append]
    rw [(trimStr_eq_nil_iff (joinLines pad)).mpr (joinLines_all_ws pad hws)]
    rfl
  · rcases pad with _ | ⟨p0, ps⟩
    · simp
    · rcases x with _ | ⟨x0, xs⟩
      · simp at *
      · rw [joinLines_append (x0 :: xs) (p0 :: ps) (by simp) (by simp)]
        exact trimStr_append_ws_right _ _ (by
          intro c hc
          rcases List.mem_cons.mp hc with h1 | h1
          · subst h1; rfl
          · exact joinLines_all_ws (p0 :: ps) hws c h1)

/-! Toolkit: search -/

theorem findIdx?_all_false {α : Type} (p : α → Bool) (l : List α)
    (h : ∀ x ∈ l, p x = false) : List.findIdx? p l = none :=
  List.findIdx?_eq_none_iff.mpr h

theorem findIdx?_first_aux {α : Type} (p : α → Bool) (pre : List α) (y : α)
    (post : List α) (hpre : ∀ x ∈ pre, p x = false) (hy : p y = true) :
    ∀ i, List.findIdx? p (pre ++ y :: post) i = some (i + pre.length) := by
  induction pre with
  | nil =>
    intro i
    simp [List.findIdx?_cons, hy]
  | cons a t ih =>
    intro i
    rw [List.cons_append, List.findIdx?_cons, if_neg (by rw [hpre a (by simp)]; simp)]
    rw [ih (fun x hx => hpre x (by simp [hx])) (i + 1)]
    simp
    omega

theorem findIdx?_first {α : Type} (p : α → Bool) (pre : List α) (y : α)
    (post : List α) (hpre : ∀ x ∈ pre, p x = false) (hy : p y = true) :
    List.findIdx? p (pre ++ y :: post) = some pre.length := by
  have := findIdx?_first_aux p pre y post hpre hy 0
  simpa using this

theorem findIdx?_decomp_aux {α : Type} (p : α → Bool) :
    ∀ (ls : List α) (i j : Nat), List.findIdx? p ls i = some j →
    ∃ pre y post, ls = pre ++ y :: post ∧ i + pre.length = j ∧
      (∀ x ∈ pre, p x = false) ∧ p y = true := by
  intro ls
  induction ls with
  | nil => intro i j h; simp [List.findIdx?] at h
  | cons a t ih =>
    intro i j h
    rw [List.findIdx?_cons] at h
    by_cases ha : p a = true
    · rw [if_pos ha] at h
      refine ⟨[], a, t, by simp, by simpa using (Option.some_inj.mp h), by simp, ha⟩
    · rw [if_neg ha] at h
      obtain ⟨pre, y, post, h1, h2, h3, h4⟩ := ih (i + 1) j h
      refine ⟨a :: pre, y, post, by simp [h1], by simp; omega, ?_, h4⟩
      intro x hx
      rcases List.mem_cons.mp hx with h5 | h5
      · subst h5
        cases hb : p x
        · rfl
        · exact absurd hb ha
      · exact h3 x h5

theorem findIdx?_decomp {α : Type} (p : α → Bool) (ls : List α) (i : Nat)
    (h : List.findIdx? p ls = some i) :
    ∃ pre y post, ls = pre ++ y :: post ∧ pre.length = i ∧
      (∀ x ∈ pre, p x = false) ∧ p y = true := by
  obtain ⟨pre, y, post, h1, h2, h3, h4⟩ := findIdx?_decomp_aux p ls 0 i h
  exact ⟨pre, y, post, h1, by simpa using h2, h3, h4⟩

theorem containsSub_iff (hay needle : Str) :
    containsSub hay needle = true ↔ needle <:+: hay := by
  induction hay with
  | nil =>
    simp only [containsSub, List.isEmpty_iff]
    constructor
    · intro h; simp [h]
    · intro h; simpa using List.eq_nil_of_infix_nil h
  | cons a t ih =>
    simp only [containsSub, Bool.or_eq_true]
    rw [List.infix_cons_iff, ih, List.isPrefixOf_iff_prefix]

theorem skipBlanksAux_spec (bl rest : List Str) (i : Nat)
    (hbl : ∀ l ∈ bl, trimStr l = [])
    (hrest : rest = [] ∨ ∃ r rs, rest = r :: rs ∧ trimStr r ≠ []) :
    skipBlanksAux (bl ++ rest) i = i + bl.length := by
  induction bl generalizing i with
  | nil =>
    rcases hrest with h | ⟨r, rs, h1, h2⟩
    · simp [h, skipBlanksAux]
    · simp [h1, skipBlanksAux, h2]
  | cons a t ih =>
    rw [List.cons_append]
    show skipBlanksAux (a :: (t ++ rest)) i = i + (a :: t).length
    rw [show skipBlanksAux (a :: (t ++ rest)) i =
      (if trimStr a = [] then skipBlanksAux (t ++ rest) (i + 1) else i) from rfl]
    rw [if_pos (hbl a (by simp))]
    rw [ih (i + 1) (fun l hl => hbl l (by simp [hl]))]
    simp
    omega

/-! Toolkit: the escaped header pattern -/

theorem parsePat_escapeRegex (v : Str) :
    parsePat (escapeRegex v) = some (v.map RAtom.lit) := by
  induction v with
  | nil => rfl
  | cons c t ih =>
    by_cases hsp : isSpecial c = true
    · simp only [escapeRegex, if_pos hsp]
      rw [parsePat.eq_def]
      simp [ih]
    · have hbs : c ≠ '\\' := by
        intro hcc
        subst hcc
        rw [show isSpecial '\\' = true from by decide] at hsp
        exact hsp rfl
      have hdot : c ≠ '.' := by
        intro hcc
        subst hcc
        rw [show isSpecial '.' = true from by decide] at hsp
        exact hsp rfl
      have hstep : parsePat (c :: escapeRegex t) =
          (parsePat (escapeRegex t)).map (fun as => RAtom.lit c :: as) := by
        rw [parsePat.eq_def]
        simp only []
        rw [if_neg hbs, if_neg hdot, if_neg hsp]
      simp [escapeRegex, hsp, hstep, ih]

theorem matchAtoms_lits (v : Str) : ∀ s r : Str,
    (matchAtoms (v.map RAtom.lit) s = some r ↔ s = v ++ r) := by
  induction v with
  | nil => intro s r; simp [matchAtoms]
  | cons c t ih =>
    intro s r
    rcases s with _ | ⟨d, s'⟩
    · simp [matchAtoms]
    · simp only [List.map_cons, matchAtoms]
      by_cases hcd : c = d
      · rw [if_pos hcd, ih s' r]
        subst hcd
        simp
      · rw [if_neg hcd]
        constructor
        · intro h; cases h
        · intro h
          rw [List.cons_append] at h
          exact absurd (List.cons.inj h).1.symm hcd

theorem lineMatches_iff (v line : Str) :
    lineMatchesVersionHeader v line = true ↔
      ∃ t, line = "## ".toList ++ v ++ t ∧ t.all isWs = true := by
  unfold lineMatchesVersionHeader
  simp only [parsePat_escapeRegex]
  by_cases hp : ("## ".toList).isPrefixOf line = true
  · rw [if_pos hp]
    obtain ⟨u, hu⟩ := List.isPrefixOf_iff_prefix.mp hp
    have hdrop : line.drop 3 = u := by
      rw [← hu]
      exact List.drop_left "## ".toList u
    rw [hdrop]
    rcases hm : matchAtoms (List.map RAtom.lit v) u with _ | rest
    · simp only [hm]
      simp only [Bool.false_eq_true, false_iff]
      rintro ⟨t, h1, _⟩
      have hu2 : u = v ++ t := by
        have h3 := hu.trans h1
        rw [List.append_assoc] at h3
        exact List.append_cancel_left h3
      rw [hu2, (matchAtoms_lits v (v ++ t) t).mpr rfl] at hm
      cases hm
    · simp only [hm]
      have hrest := (matchAtoms_lits v u rest).mp hm
      constructor
      · intro h
        exact ⟨rest, by rw [← hu, hrest, List.append_assoc], h⟩
      · rintro ⟨t, h1, h2⟩
        have hu2 : u = v ++ t := by
          have h3 := hu.trans h1
          rw [List.append_assoc] at h3
          exact List.append_cancel_left h3
        have hrt : rest = t := by
          rw [hu2] at hrest
          exact List.append_cancel_left hrest.symm
        rw [hrt]
        exact h2
  · rw [if_neg hp]
    simp only [Bool.false_eq_true, false_iff]
    rintro ⟨t, h1, _⟩
    exact hp (List.isPrefixOf_iff_prefix.mpr ⟨v ++ t, by rw [h1, List.append_assoc]⟩)

theorem lineMatches_self (v : Str) :
    lineMatchesVersionHeader v ("## ".toList ++ v) = true :=
  (lineMatches_iff v _).mpr ⟨[], by simp, rfl⟩

theorem lineMatches_imp_sectionStart (v line : Str)
    (h : lineMatchesVersionHeader v line = true) :
    ("## ".toList).isPrefixOf line = true := by
  obtain ⟨t, h1, _⟩ := (lineMatches_iff v line).mp h
  exact List.isPrefixOf_iff_prefix.mpr ⟨v ++ t, by rw [h1, List.append_assoc]⟩

theorem lineMatches_imp_headerPre (v line : Str)
    (h : lineMatchesVersionHeader v line = true) :
    ("## ".toList ++ v) <+: line := by
  obtain ⟨t, h1, _⟩ := (lineMatches_iff v line).mp h
  exact ⟨t, by rw [h1]⟩

theorem trim_ne_nil_of_sectionStart (l : Str)
    (h : ("## ".toList).isPrefixOf l = true) : trimStr l ≠ [] := by
  obtain ⟨u, hu⟩ := List.isPrefixOf_iff_prefix.mp h
  refine trimStr_ne_nil_of_mem l '#' ?_ (by rfl)
  rw [← hu]
  simp [show "## ".toList = ['#', '#', ' '] from rfl]

theorem not_sectionStart_of_blank (l : Str) (h : trimStr l = []) :
    ("## ".toList).isPrefixOf l = false := by
  cases hb : ("## ".toList).isPrefixOf l
  · rfl
  · exact absurd h (trim_ne_nil_of_sectionStart l hb)

theorem not_sectionStart_of_title (l : Str)
    (h : ("# ".toList).isPrefixOf l = true) :
    ("## ".toList).isPrefixOf l = false := by
  obtain ⟨u, hu⟩ := List.isPrefixOf_iff_prefix.mp h
  cases hb : ("## ".toList).isPrefixOf l
  · rfl
  · obtain ⟨w, hw⟩ := List.isPrefixOf_iff_prefix.mp hb
    rw [← hu] at hw
    rw [show "# ".toList = ['#', ' '] from rfl] at hw
    rw [show "## ".toList = ['#', '#', ' '] from rfl] at hw
    simp at hw

theorem not_lineMatches_of_blank (v l : Str) (h : trimStr l = []) :
    lineMatchesVersionHeader v l = false := by
  cases hb : lineMatchesVersionHeader v l
  · rfl
  · have h1 := lineMatches_imp_sectionStart v l hb
    rw [not_sectionStart_of_blank l h] at h1
    cases h1

theorem not_lineMatches_of_title (v l : Str)
    (h : ("# ".toList).isPrefixOf l = true) :
    lineMatchesVersionHeader v l = false := by
  cases hb : lineMatchesVersionHeader v l
  · rfl
  · have h1 := lineMatches_imp_sectionStart v l hb
    rw [not_sectionStart_of_title l h] at h1
    cases h1

theorem containsSub_of_header_mem (ls : List Str) (v hB : Str)
    (hmem : hB ∈ ls) (hpre : ("## ".toList ++ v) <+: hB) :
    containsSub (joinLines ls) ("## ".toList ++ v) = true :=
  (containsSub_iff (joinLines ls) _).mpr
    (hpre.isInfix.trans (infix_joinLines_of_mem hB ls hmem))

theorem trim_joinLines_ne_nil_of_header (ls : List Str) (hB : Str)
    (hmem : hB ∈ ls) (hsec : ("## ".toList).isPrefixOf hB = true) :
    trimStr (joinLines ls) ≠ [] := by
  obtain ⟨u, hu⟩ := List.isPrefixOf_iff_prefix.mp hsec
  refine trimStr_ne_nil_of_mem _ '#' ?_ (by rfl)
  refine mem_char_joinLines '#' hB ls ?_ hmem
  rw [← hu]
  simp [show "## ".toList = ['#', '#', ' '] from rfl]

/-! Toolkit: the replacement branch of the merge -/

theorem isEmpty_false_of_ne_nil {α : Type} (l : List α) (h : l ≠ []) :
    l.isEmpty = false := by
  cases hb : l.isEmpty
  · rfl
  · exact absurd (List.isEmpty_iff.mp hb) h

theorem build_replace_master (pre body post : List Str) (hB L E : Str)
    (hnl : ∀ l ∈ pre ++ hB :: body ++ post, '\n' ∉ l)
    (hpre : ∀ l ∈ pre, lineMatchesVersionHeader L l = false)
    (hHB : lineMatchesVersionHeader L hB = true)
    (hbody : ∀ l ∈ body, ("## ".toList).isPrefixOf l = false)
    (hpost : post = [] ∨ ∃ p ps, post = p :: ps ∧ ("## ".toList).isPrefixOf p = true)
    (hver : extractEntryVersion E = some L)
    (hL : L ≠ []) :
    buildChangelogContent (some (joinLines (pre ++ hB :: body ++ post))) E =
      joinLines pre ++ (if pre = [] then [] else ['\n']) ++ trimStr E ++
        "\n\n".toList ++ joinLines post := by
  rw [show (pre ++ hB :: body ++ post : List Str) = pre ++ hB :: (body ++ post) from by
    simp]
  rw [show (pre ++ hB :: body ++ post : List Str) = pre ++ hB :: (body ++ post) from by
    simp] at hnl
  have hne : (pre ++ hB :: (body ++ post)) ≠ [] := by simp
  have hsplit : splitLines (joinLines (pre ++ hB :: (body ++ post))) =
      pre ++ hB :: (body ++ post) := splitLines_joinLines _ hnl hne
  have hsec : ("## ".toList).isPrefixOf hB = true :=
    lineMatches_imp_sectionStart L hB hHB
  have htrim : trimStr (joinLines (pre ++ hB :: (body ++ post))) ≠ [] :=
    trim_joinLines_ne_nil_of_header _ hB (by simp) hsec
  have hcs : containsSub (joinLines (pre ++ hB :: (body ++ post)))
      ("## ".toList ++ L) = true :=
    containsSub_of_header_mem _ L hB (by simp)
      (lineMatches_imp_headerPre L hB hHB)
  have hfind : List.findIdx? (lineMatchesVersionHeader L)
      (pre ++ hB :: (body ++ post)) = some pre.length :=
    findIdx?_first _ pre hB (body ++ post) hpre hHB
  have hdrop : (pre ++ hB :: (body ++ post)).drop (pre.length + 1) = body ++ post := by
    rw [show pre ++ hB :: (body ++ post) = (pre ++ [hB]) ++ (body ++ post) from by simp]
    rw [show pre.length + 1 = (pre ++ [hB]).length from by simp]
    exact List.drop_left _ _
  have htake : (pre ++ hB :: (body ++ post)).take pre.length = pre :=
    List.take_left _ _
  simp only [buildChangelogContent, hver, Option.getD_some, Option.isNone_some,
    Bool.false_or]
  rw [isEmpty_false_of_ne_nil _ htrim]
  simp only [Bool.false_eq_true, if_false]
  rw [isEmpty_false_of_ne_nil _ hL, hcs]
  simp only [Bool.not_false, Bool.true_and, if_true]
  rw [hsplit, hfind]
  simp only [hsplit, hdrop, htake]
  rcases hpost with hempty | ⟨p, ps, hpp, hp⟩
  · subst hempty
    rw [show (body ++ [] : List Str) = body from by simp]
    rw [findIdx?_all_false _ body hbody]
    simp [List.length_eq_zero, joinLines]
  · subst hpp
    rw [findIdx?_first _ body p ps hbody hp]
    simp [List.drop_left, List.length_eq_zero]

/-! Toolkit: the creation and insertion branches of the merge -/

theorem build_fresh (existing : Option Str) (E : Str)
    (h : existing = none ∨ trimStr (existing.getD []) = []) :
    buildChangelogContent existing E =
      "# Changelog\n\n".toList ++ trimStr E ++ "\n\n".toList := by
  rcases existing with _ | c
  · simp [buildChangelogContent]
  · have hc : trimStr c = [] := by
      rcases h with h1 | h1
      · cases h1
      · simpa using h1
    simp [buildChangelogContent, hc]

theorem insert_pos_take (title : Str) (blanks secs : List Str) :
    (title :: blanks ++ secs).take (1 + blanks.length) = title :: blanks := by
  rw [show (title :: blanks ++ secs : List Str) = (title :: blanks) ++ secs from by simp]
  rw [show 1 + blanks.length = (title :: blanks).length from by simp [Nat.add_comm]]
  exact List.take_left _ _

theorem insert_pos_drop (title : Str) (blanks secs : List Str) :
    (title :: blanks ++ secs).drop (1 + blanks.length) = secs := by
  rw [show (title :: blanks ++ secs : List Str) = (title :: blanks) ++ secs from by simp]
  rw [show 1 + blanks.length = (title :: blanks).length from by simp [Nat.add_comm]]
  exact List.drop_left _ _

theorem insertSection_titled (title : Str) (blanks secs : List Str) (E : Str)
    (hnl : ∀ l ∈ title :: blanks ++ secs, '\n' ∉ l)
    (htitle : ("# ".toList).isPrefixOf title = true)
    (hblanks : ∀ l ∈ blanks, trimStr l = [])
    (hsecs : secs = [] ∨ ∃ s ss, secs = s :: ss ∧ trimStr s ≠ []) :
    insertSection (joinLines (title :: blanks ++ secs)) E =
      joinLines (title :: blanks ++ trimStr E :: secs) := by
  have hsplit : splitLines (joinLines (title :: blanks ++ secs)) =
      title :: blanks ++ secs := splitLines_joinLines _ hnl (by simp)
  have hfind : List.findIdx? (fun l => ("# ".toList).isPrefixOf l)
      (title :: blanks ++ secs) = some 0 := by
    have := findIdx?_first (fun l => ("# ".toList).isPrefixOf l) [] title
      (blanks ++ secs) (by simp) htitle
    simpa using this
  simp only [insertSection, hsplit, hfind]
  rw [show (title :: blanks ++ secs : List Str).drop (0 + 1) = blanks ++ secs from rfl]
  rw [skipBlanksAux_spec blanks secs 1 hblanks hsecs]
  simp only [insertAt]
  rw [insert_pos_take, insert_pos_drop]

theorem insertSection_notitle (D E : Str)
    (hno : ∀ l ∈ splitLines D, ("# ".toList).isPrefixOf l = false) :
    insertSection D E =
      "# Changelog\n\n".toList ++ trimStr E ++ "\n\n".toList ++ D := by
  have hf := findIdx?_all_false (fun l => ("# ".toList).isPrefixOf l)
    (splitLines D) hno
  simp only [insertSection, hf]

theorem spliceFallback_titled (title : Str) (blanks secs : List Str) (E : Str)
    (hnl : ∀ l ∈ title :: blanks ++ secs, '\n' ∉ l)
    (htitle : ("# ".toList).isPrefixOf title = true)
    (hblanks : ∀ l ∈ blanks, trimStr l = [])
    (hsecs : secs = [] ∨ ∃ s ss, secs = s :: ss ∧ trimStr s ≠ []) :
    spliceFallback (joinLines (title :: blanks ++ secs)) E =
      joinLines (title :: blanks ++ trimStr E :: secs) := by
  have hsplit : splitLines (joinLines (title :: blanks ++ secs)) =
      title :: blanks ++ secs := splitLines_joinLines _ hnl (by simp)
  have hfind : List.findIdx? (fun l => ("# ".toList).isPrefixOf l)
      (title :: blanks ++ secs) = some 0 := by
    have := findIdx?_first (fun l => ("# ".toList).isPrefixOf l) [] title
      (blanks ++ secs) (by simp) htitle
    simpa using this
  simp only [spliceFallback, hsplit, hfind]
  rw [show (title :: blanks ++ secs : List Str).drop (0 + 1) = blanks ++ secs from rfl]
  rw [skipBlanksAux_spec blanks secs 1 hblanks hsecs]
  simp only [insertAt]
  rw [insert_pos_take, insert_pos_drop]

theorem spliceFallback_notitle (D E : Str) (s : Str) (ss : List Str)
    (hsp : splitLines D = s :: ss)
    (hno : ∀ l ∈ splitLines D, ("# ".toList).isPrefixOf l = false)
    (hs : trimStr s ≠ []) :
    spliceFallback D E = joinLines (trimStr E :: splitLines D) := by
  have hf : List.findIdx? (fun l => ("# ".toList).isPrefixOf l) (s :: ss) = none := by
    rw [← hsp]
    exact findIdx?_all_false _ _ hno
  have h0 := skipBlanksAux_spec [] (s :: ss) 0 (by simp) (Or.inr ⟨s, ss, rfl, hs⟩)
  simp only [List.nil_append, List.length_nil, Nat.add_zero] at h0
  simp only [spliceFallback, hsp, hf, List.drop_zero, h0]
  simp only [insertAt]
  simp

theorem build_insert_route (D E : Str) (hD : trimStr D ≠ [])
    (hv : ∀ v, extractEntryVersion E = some v →
      v = [] ∨ containsSub D ("## ".toList ++ v) = false) :
    buildChangelogContent (some D) E = insertSection D E := by
  rcases hev : extractEntryVersion E with _ | v
  · simp only [buildChangelogContent, hev, Option.getD_some, Option.isNone_some,
      Bool.false_or]
    rw [isEmpty_false_of_ne_nil _ hD]
    simp only [Bool.false_eq_true, if_false]
  · rcases hv v hev with h1 | h1
    · subst h1
      simp only [buildChangelogContent, hev, Option.getD_some, Option.isNone_some,
        Bool.false_or]
      rw [isEmpty_false_of_ne_nil _ hD]
      simp only [Bool.false_eq_true, if_false]
      simp
    · simp only [buildChangelogContent, hev, Option.getD_some, Option.isNone_some,
        Bool.false_or]
      rw [isEmpty_false_of_ne_nil _ hD]
      simp only [Bool.false_eq_true, if_false]
      rw [h1]
      simp

theorem build_fallback_route (D E v : Str) (hD : trimStr D ≠ [])
    (hver : extractEntryVersion E = some v) (hvne : v ≠ [])
    (hcs : containsSub D ("## ".toList ++ v) = true)
    (hfind : List.findIdx? (lineMatchesVersionHeader v) (splitLines D) = none) :
    buildChangelogContent (some D) E = spliceFallback D E := by
  simp only [buildChangelogContent, hver, Option.getD_some, Option.isNone_some,
    Bool.false_or]
  rw [isEmpty_false_of_ne_nil _ hD]
  simp only [Bool.false_eq_true, if_false]
  rw [isEmpty_false_of_ne_nil _ hvne, hcs]
  simp only [Bool.not_false, Bool.true_and, if_true]
  rw [hfind]

/-! Toolkit: locating a section after a merge -/

theorem extract_found (pfx mid sfx : List Str) (hdr L : Str)
    (hnl : ∀ l ∈ pfx ++ hdr :: mid ++ sfx, '\n' ∉ l)
    (hpfx : ∀ l ∈ pfx, lineMatchesVersionHeader L l = false)
    (hhdr : lineMatchesVersionHeader L hdr = true)
    (hmid : ∀ l ∈ mid, ("## ".toList).isPrefixOf l = false)
    (hsfx : sfx = [] ∨ ∃ s ss, sfx = s :: ss ∧ ("## ".toList).isPrefixOf s = true)
    (hL : L ≠ []) :
    extractVersionSection (joinLines (pfx ++ hdr :: mid ++ sfx)) L =
      ExtractResult.found (trimStr (joinLines mid)) := by
  rw [show (pfx ++ hdr :: mid ++ sfx : List Str) = pfx ++ hdr :: (mid ++ sfx) from by
    simp]
  rw [show (pfx ++ hdr :: mid ++ sfx : List Str) = pfx ++ hdr :: (mid ++ sfx) from by
    simp] at hnl
  have hsec : ("## ".toList).isPrefixOf hdr = true :=
    lineMatches_imp_sectionStart L hdr hhdr
  have hcne : joinLines (pfx ++ hdr :: (mid ++ sfx)) ≠ [] := by
    intro hempty
    have h1 : ('#' : Char) ∈ joinLines (pfx ++ hdr :: (mid ++ sfx)) := by
      obtain ⟨u, hu⟩ := List.isPrefixOf_iff_prefix.mp hsec
      refine mem_char_joinLines '#' hdr _ ?_ (by simp)
      rw [← hu]
      simp [show "## ".toList = ['#', '#', ' '] from rfl]
    rw [hempty] at h1
    simp at h1
  have hsplit : splitLines (joinLines (pfx ++ hdr :: (mid ++ sfx))) =
      pfx ++ hdr :: (mid ++ sfx) := splitLines_joinLines _ hnl (by simp)
  have hfind : List.findIdx? (lineMatchesVersionHeader L)
      (pfx ++ hdr :: (mid ++ sfx)) = some pfx.length :=
    findIdx?_first _ pfx hdr (mid ++ sfx) hpfx hhdr
  have hdrop : (pfx ++ hdr :: (mid ++ sfx)).drop (pfx.length + 1) = mid ++ sfx := by
    rw [show pfx ++ hdr :: (mid ++ sfx) = (pfx ++ [hdr]) ++ (mid ++ sfx) from by simp]
    rw [show pfx.length + 1 = (pfx ++ [hdr]).length from by simp]
    exact List.drop_left _ _
  simp only [extractVersionSection]
  rw [isEmpty_false_of_ne_nil _ hcne]
  simp only [Bool.false_eq_true, if_false]
  rw [isEmpty_false_of_ne_nil _ hL]
  simp only [Bool.false_eq_true, if_false]
  rw [hsplit, hfind]
  simp only [hsplit, hdrop]
  rcases hsfx with hempty | ⟨s, ss, hss, hs⟩
  · subst hempty
    rw [show (mid ++ [] : List Str) = mid from by simp]
    rw [findIdx?_all_false _ mid hmid]
  · subst hss
    rw [findIdx?_first _ mid s ss hmid hs]
    simp only []
    rw [show (mid ++ s :: ss).take mid.length = mid from List.take_left _ _]

/-! Toolkit: algebra of line joins for merged documents -/

theorem formula_join (pre X : List Str) (hX : X ≠ []) :
    joinLines (pre ++ X) =
      joinLines pre ++ (if pre = [] then [] else ['\n']) ++ joinLines X := by
  rcases pre with _ | ⟨a, t⟩
  · simp [joinLines]
  · rw [joinLines_append (a :: t) X (by simp) hX]
    simp

theorem join_pad2 (X : List Str) (hX : X ≠ []) :
    joinLines (X ++ [[], []]) = joinLines X ++ "\n\n".toList := by
  rw [joinLines_append X [[], []] hX (by simp)]
  simp [joinLines_cons_cons, joinLines]

theorem join_pad_mid (X post : List Str) (hX : X ≠ []) (hpost : post ≠ []) :
    joinLines (X ++ [] :: post) = joinLines X ++ "\n\n".toList ++ joinLines post := by
  rw [joinLines_append X ([] :: post) hX (by simp)]
  rcases post with _ | ⟨p, ps⟩
  · exact absurd rfl hpost
  · rw [joinLines_cons_cons]
    simp

theorem joinLines_expand_head (x : Str) (C B : List Str)
    (hx : joinLines C = x) (hC : C ≠ []) :
    joinLines (x :: B) = joinLines (C ++ B) := by
  rcases B with _ | ⟨b, bs⟩
  · simp [joinLines, hx]
  · rw [joinLines_cons_cons, joinLines_append C (b :: bs) hC (by simp), hx]

theorem joinLines_expand_mid (A : List Str) (x : Str) (B C : List Str)
    (hx : joinLines C = x) (hC : C ≠ []) :
    joinLines (A ++ x :: B) = joinLines (A ++ C ++ B) := by
  rcases A with _ | ⟨a, t⟩
  · simpa using joinLines_expand_head x C B hx hC
  · rw [joinLines_append (a :: t) (x :: B) (by simp) (by simp)]
    rw [show (a :: t) ++ C ++ B = (a :: t) ++ (C ++ B) from by simp]
    rw [joinLines_append (a :: t) (C ++ B) (by simp) (by
      intro hcb
      exact hC (List.append_eq_nil.mp hcb).1)]
    rw [joinLines_expand_head x C B hx hC]

theorem replace_result_lines_of_post_nil (pre : List Str) (E L : Str)
    (teBody : List Str)
    (hE : splitLines (trimStr E) = ("## ".toList ++ L) :: teBody) :
    joinLines pre ++ (if pre = [] then [] else ['\n']) ++ trimStr E ++
        "\n\n".toList ++ joinLines ([] : List Str) =
      joinLines (pre ++ (("## ".toList ++ L) :: (teBody ++ [[], []])) ++ []) := by
  have hTE : joinLines (("## ".toList ++ L) :: teBody) = trimStr E := by
    rw [← hE]
    exact joinLines_splitLines (trimStr E)
  rw [show (pre ++ (("## ".toList ++ L) :: (teBody ++ [[], []])) ++ [] : List Str) =
    pre ++ ((("## ".toList ++ L) :: teBody) ++ [[], []]) from by simp]
  rw [formula_join pre ((("## ".toList ++ L) :: teBody) ++ [[], []]) (by simp)]
  rw [join_pad2 _ (by simp), hTE]
  simp [joinLines]

theorem replace_result_lines_of_post_cons (pre : List Str) (p : Str)
    (ps : List Str) (E L : Str) (teBody : List Str)
    (hE : splitLines (trimStr E) = ("## ".toList ++ L) :: teBody) :
    joinLines pre ++ (if pre = [] then [] else ['\n']) ++ trimStr E ++
        "\n\n".toList ++ joinLines (p :: ps) =
      joinLines (pre ++ (("## ".toList ++ L) :: (teBody ++ [[]])) ++ (p :: ps)) := by
  have hTE : joinLines (("## ".toList ++ L) :: teBody) = trimStr E := by
    rw [← hE]
    exact joinLines_splitLines (trimStr E)
  rw [show (pre ++ (("## ".toList ++ L) :: (teBody ++ [[]])) ++ (p :: ps) : List Str) =
    pre ++ ((("## ".toList ++ L) :: teBody) ++ [] :: (p :: ps)) from by simp]
  rw [formula_join pre ((("## ".toList ++ L) :: teBody) ++ [] :: (p :: ps)) (by simp)]
  rw [join_pad_mid _ (p :: ps) (by simp) (by simp), hTE]
  simp

/-! Toolkit: locating the entry's section in each merged shape -/

theorem extract_after_titled_insert (title : Str) (blanks secs teBody : List Str)
    (L E : Str)
    (hnlD : ∀ l ∈ title :: blanks ++ secs, '\n' ∉ l)
    (hnlE : ∀ l ∈ ("## ".toList ++ L) :: teBody, '\n' ∉ l)
    (hTE : joinLines (("## ".toList ++ L) :: teBody) = trimStr E)
    (htl : ("# ".toList).isPrefixOf title = true)
    (hbl : ∀ l ∈ blanks, trimStr l = [])
    (hsc : secs = [] ∨ ∃ s ss, secs = s :: ss ∧ ("## ".toList).isPrefixOf s = true)
    (hteBody : ∀ l ∈ teBody, ("## ".toList).isPrefixOf l = false)
    (hL : L ≠ []) :
    extractVersionSection (joinLines (title :: blanks ++ trimStr E :: secs)) L =
      ExtractResult.found (trimStr (joinLines teBody)) := by
  rw [show title :: blanks ++ trimStr E :: secs =
    (title :: blanks) ++ trimStr E :: secs from by simp]
  rw [joinLines_expand_mid (title :: blanks) (trimStr E) secs
    (("## ".toList ++ L) :: teBody) hTE (by simp)]
  refine extract_found (title :: blanks) teBody secs ("## ".toList ++ L) L
    ?_ ?_ (lineMatches_self L) hteBody hsc hL
  · intro l hl
    rcases List.mem_append.mp hl with h12 | h3
    · rcases List.mem_append.mp h12 with h1 | h2
      · rcases List.mem_cons.mp h1 with h | h
        · subst h
          exact hnlD l (List.mem_cons_self _ _)
        · exact hnlD l (List.mem_cons_of_mem _ (List.mem_append_left _ h))
      · exact hnlE l h2
    · exact hnlD l (List.mem_cons_of_mem _ (List.mem_append_right _ h3))
  · intro l hl
    rcases List.mem_cons.mp hl with h | h
    · subst h
      exact not_lineMatches_of_title L l htl
    · exact not_lineMatches_of_blank L l (hbl l h)

theorem extract_after_head_insert (teBody : List Str) (L E : Str) (s : Str)
    (ss : List Str)
    (hnlD : ∀ l ∈ s :: ss, '\n' ∉ l)
    (hnlE : ∀ l ∈ ("## ".toList ++ L) :: teBody, '\n' ∉ l)
    (hTE : joinLines (("## ".toList ++ L) :: teBody) = trimStr E)
    (hs : ("## ".toList).isPrefixOf s = true)
    (hteBody : ∀ l ∈ teBody, ("## ".toList).isPrefixOf l = false)
    (hL : L ≠ []) :
    extractVersionSection (joinLines (trimStr E :: s :: ss)) L =
      ExtractResult.found (trimStr (joinLines teBody)) := by
  rw [joinLines_expand_head (trimStr E) (("## ".toList ++ L) :: teBody) (s :: ss)
    hTE (by simp)]
  have h := extract_found [] teBody (s :: ss) ("## ".toList ++ L) L
    (by
      intro l hl
      rcases List.mem_append.mp hl with h12 | h3
      · rw [List.nil_append] at h12
        exact hnlE l h12
      · exact hnlD l h3)
    (by simp) (lineMatches_self L) hteBody (Or.inr ⟨s, ss, rfl, hs⟩) hL
  simpa using h

theorem extract_after_fresh_shape (teBody : List Str) (L E : Str)
    (hnlE : ∀ l ∈ ("## ".toList ++ L) :: teBody, '\n' ∉ l)
    (hE : splitLines (trimStr E) = ("## ".toList ++ L) :: teBody)
    (hteBody : ∀ l ∈ teBody, ("## ".toList).isPrefixOf l = false)
    (hL : L ≠ []) :
    extractVersionSection
        ("# Changelog\n\n".toList ++ trimStr E ++ "\n\n".toList) L =
      ExtractResult.found (trimStr (joinLines teBody)) := by
  have hformula : "# Changelog\n\n".toList ++ trimStr E ++ "\n\n".toList =
      joinLines (["# Changelog".toList, []] ++
        (("## ".toList ++ L) :: (teBody ++ [[], []])) ++ []) := by
    have h0 := replace_result_lines_of_post_nil ["# Changelog".toList, []]
      E L teBody hE
    rw [← h0]
    simp [joinLines_cons_cons, joinLines]
  rw [hformula]
  rw [extract_found ["# Changelog".toList, []] (teBody ++ [[], []]) []
    ("## ".toList ++ L) L
    (by
      intro l hl
      rcases List.mem_append.mp hl with h12 | h3
      · rcases List.mem_append.mp h12 with h1 | h2
        · rcases List.mem_cons.mp h1 with h | h
          · subst h
            decide
          · have hx : l = [] := by simpa using h
            subst hx
            simp
        · rcases List.mem_cons.mp h2 with h | h
          · subst h
            exact hnlE _ (List.mem_cons_self _ _)
          · rcases List.mem_append.mp h with h4 | h4
            · exact hnlE l (List.mem_cons_of_mem _ h4)
            · rcases List.mem_cons.mp h4 with h5 | h5
              · subst h5
                simp
              · have h6 : l = [] := by simpa using h5
                subst h6
                simp
      · simp at h3)
    (by
      intro l hl
      rcases List.mem_cons.mp hl with h | h
      · subst h
        exact not_lineMatches_of_title L _ (by decide)
      · have h2 : l = [] := by simpa using h
        subst h2
        exact not_lineMatches_of_blank L [] (by decide))
    (lineMatches_self L)
    (by
      intro l hl
      rcases List.mem_append.mp hl with h | h
      · exact hteBody l h
      · rcases List.mem_cons.mp h with h2 | h2
        · subst h2
          decide
        · have h3 : l = [] := by simpa using h2
          subst h3
          decide)
    (Or.inl rfl) hL]
  rw [trimStr_joinLines_append_blanks teBody [[], []] (by
    intro l hl
    rcases List.mem_cons.mp hl with h | h
    · subst h
      rfl
    · have h2 : l = [] := by simpa using h
      subst h2
      rfl)]

theorem extract_after_prepend (D : Str) (teBody : List Str) (L E : Str)
    (s : Str) (ss : List Str)
    (hnlE : ∀ l ∈ ("## ".toList ++ L) :: teBody, '\n' ∉ l)
    (hE : splitLines (trimStr E) = ("## ".toList ++ L) :: teBody)
    (hteBody : ∀ l ∈ teBody, ("## ".toList).isPrefixOf l = false)
    (hL : L ≠ [])
    (hdls : splitLines D = s :: ss)
    (hs : ("## ".toList).isPrefixOf s = true) :
    extractVersionSection
        ("# Changelog\n\n".toList ++ trimStr E ++ "\n\n".toList ++ D) L =
      ExtractResult.found (trimStr (joinLines teBody)) := by
  have hTE : joinLines (("## ".toList ++ L) :: teBody) = trimStr E := by
    rw [← hE]
    exact joinLines_splitLines (trimStr E)
  have hnlD : ∀ l ∈ s :: ss, '\n' ∉ l := by
    intro l hl
    exact noNl_splitLines D l (by rw [hdls]; exact hl)
  have hformula : "# Changelog\n\n".toList ++ trimStr E ++ "\n\n".toList ++ D =
      joinLines (["# Changelog".toList, []] ++
        (("## ".toList ++ L) :: (teBody ++ [[]])) ++ (s :: ss)) := by
    have h0 := replace_result_lines_of_post_cons ["# Changelog".toList, []]
      s ss E L teBody hE
    rw [← h0]
    have hDj : joinLines (s :: ss) = D := by
      rw [← hdls]
      exact joinLines_splitLines D
    rw [hDj]
    simp [joinLines_cons_cons, joinLines]
  rw [hformula]
  rw [extract_found ["# Changelog".toList, []] (teBody ++ [[]]) (s :: ss)
    ("## ".toList ++ L) L
    (by
      intro l hl
      rcases List.mem_append.mp hl with h12 | h3
      · rcases List.mem_append.mp h12 with h1 | h2
        · rcases List.mem_cons.mp h1 with h | h
          · subst h
            decide
          · have hx : l = [] := by simpa using h
            subst hx
            simp
        · rcases List.mem_cons.mp h2 with h | h
          · subst h
            exact hnlE _ (List.mem_cons_self _ _)
          · rcases List.mem_append.mp h with h4 | h4
            · exact hnlE l (List.mem_cons_of_mem _ h4)
            · have h5 : l = [] := by simpa using h4
              subst h5
              simp
      · exact hnlD l h3)
    (by
      intro l hl
      rcases List.mem_cons.mp hl with h | h
      · subst h
        exact not_lineMatches_of_title L _ (by decide)
      · have h2 : l = [] := by simpa using h
        subst h2
        exact not_lineMatches_of_blank L [] (by decide))
    (lineMatches_self L)
    (by
      intro l hl
      rcases List.mem_append.mp hl with h | h
      · exact hteBody l h
      · have h2 : l = [] := by simpa using h
        subst h2
        decide)
    (Or.inr ⟨s, ss, rfl, hs⟩) hL]
  rw [trimStr_joinLines_append_blanks teBody [[]] (by
    intro l hl
    have h2 : l = [] := by simpa using hl
    subst h2
    rfl)]

/-! Claims -/

/-- Claim C1, evaluation at the failing input: for the spec's example
scenario 1 (document `"# Changelog\n\n## 1.0.0\n\n- Previous release"`,
new entry `"## 2.0.0\n\n- New feature"`), the insertion branch of
`buildChangelogContent` joins the spliced entry with single newlines, so
the inserted section is separated from the following section by no blank
line, while the claim (and the repository's own test expectation in
`tests/file-utils.test.ts`) requires exactly one blank line. -/
theorem claim_c1_insertion_separator_eval :
    buildChangelogContent
        (some ("# Changelog\n\n## 1.0.0\n\n- Previous release".toList))
        ("## 2.0.0\n\n- New feature".toList) =
      "# Changelog\n\n## 2.0.0\n\n- New feature\n## 1.0.0\n\n- Previous release".toList ∧
    "# Changelog\n\n## 2.0.0\n\n- New feature\n## 1.0.0\n\n- Previous release".toList ≠
      "# Changelog\n\n## 2.0.0\n\n- New feature\n\n## 1.0.0\n\n- Previous release".toList := by
  constructor
  · decide
  · decide

/-- Claim C2: for an absent or blank existing document and any generated
entry, the merge produces exactly the title line, one blank line, the
trimmed entry, and two trailing newlines. -/
theorem claim_c2_fresh_document (existing : Option Str) (E : Str)
    (h : existing = none ∨ trimStr (existing.getD []) = []) :
    buildChangelogContent existing E =
      "# Changelog\n\n".toList ++ trimStr E ++ "\n\n".toList :=
  build_fresh existing E h

/-- Witness for C2 at an absent document and the entry
`"## 1.0.0\n\n- New feature"`. -/
theorem claim_c2_fresh_document_witness :
    ((none : Option Str) = none ∨ trimStr ((none : Option Str).getD []) = []) ∧
    buildChangelogContent none ("## 1.0.0\n\n- New feature".toList) =
      "# Changelog\n\n".toList ++ trimStr ("## 1.0.0\n\n- New feature".toList) ++
        "\n\n".toList :=
  ⟨Or.inl rfl, claim_c2_fresh_document none ("## 1.0.0\n\n- New feature".toList)
    (Or.inl rfl)⟩

/-- Claim C6: the header matcher used by the section locator
(`extractVersionSection`) and by the replacement branch of
`buildChangelogContent` accepts a line exactly when the line is
literally `## <label>` followed by nothing but whitespace — for every
label, including labels containing pattern-special characters, so it
never matches any other section's header. -/
theorem claim_c6_label_escaping (v line : Str) :
    lineMatchesVersionHeader v line = true ↔
      ∃ t, line = "## ".toList ++ v ++ t ∧ t.all isWs = true :=
  lineMatches_iff v line

/-- Claim C7, counterexample: for a file whose first line is blank and
whose second line is `1.2.3`, `parseVersionFromTextFile` fails (models
the thrown `Empty version file` error) instead of returning the second
line as the claim states. -/
theorem claim_c7_counterexample :
    parseVersionFromTextFile ("\n1.2.3".toList) = none ∧
    (none : Option Str) ≠ some ("1.2.3".toList) := by
  constructor
  · decide
  · decide

/-- Claim C7 (amended): `parseVersionFromTextFile` looks only at the
first line of the file: it returns that line trimmed when the trimmed
line is nonempty, and fails otherwise — even when a later line is
non-empty. -/
theorem claim_c7_first_line_only (content fl : Str) (rest : List Str)
    (h : splitLines content = fl :: rest) :
    parseVersionFromTextFile content =
      (if trimStr fl = [] then none else some (trimStr fl)) := by
  simp [parseVersionFromTextFile, h, List.isEmpty_iff]

/-- Witness for the amended C7 at the file `"  1.2.3  \nrest"`. -/
theorem claim_c7_first_line_only_witness :
    splitLines ("  1.2.3  \nrest".toList) = "  1.2.3  ".toList :: ["rest".toList] ∧
    parseVersionFromTextFile ("  1.2.3  \nrest".toList) =
      (if trimStr ("  1.2.3  ".toList) = [] then none
       else some (trimStr ("  1.2.3  ".toList))) :=
  ⟨by decide, claim_c7_first_line_only ("  1.2.3  \nrest".toList)
    ("  1.2.3  ".toList) ["rest".toList] (by decide)⟩

/-- Claim C8: on a direct-push trigger with a fault-free provider,
commit fetching fails exactly when the `after` reference is missing
(absent or empty, the JavaScript-falsy cases); with `before` null, empty
or the all-zero sentinel it returns exactly the single `after` commit;
otherwise it returns the provider's comparison range unchanged. -/
theorem claim_c8_push_commit_fetch {κ : Type} (lp : Nat → Except Str (List κ))
    (gc : Str → Except Str κ) (cc : Str → Str → Except Str (List κ))
    (pn : Option Nat) (before after : Option Str)
    (hgc : ∀ s, ∃ c, gc s = Except.ok c)
    (hcc : ∀ b a, ∃ l, cc b a = Except.ok l) :
    ((∃ e, getNewCommits lp gc cc pn before after false = Except.error e) ↔
      after.getD [] = []) ∧
    (∀ a c, after = some a → a ≠ [] →
      (before = none ∨ before = some [] ∨ before = some zeroSha) →
      gc a = Except.ok c →
      getNewCommits lp gc cc pn before after false = Except.ok [c]) ∧
    (∀ a b, after = some a → a ≠ [] → before = some b → b ≠ [] → b ≠ zeroSha →
      getNewCommits lp gc cc pn before after false = cc b a) := by
  refine ⟨?_, ?_, ?_⟩
  · rcases after with _ | a
    · simp [getNewCommits]
    · by_cases ha : a = []
      · subst ha
        simp [getNewCommits]
      · rcases before with _ | b
        · simp only [getNewCommits, Bool.false_eq_true, if_false,
            isEmpty_false_of_ne_nil _ ha, Option.getD_some]
          constructor
          · rintro ⟨e, he⟩
            exfalso
            obtain ⟨c, hc⟩ := hgc a
            rw [hc] at he
            cases he
          · intro hfalse
            exact absurd hfalse ha
        · simp only [getNewCommits, Bool.false_eq_true, if_false,
            isEmpty_false_of_ne_nil _ ha, Option.getD_some]
          constructor
          · rintro ⟨e, he⟩
            exfalso
            by_cases hb : (b.isEmpty || b == zeroSha) = true
            · rw [if_pos hb] at he
              obtain ⟨c, hc⟩ := hgc a
              rw [hc] at he
              cases he
            · rw [if_neg hb] at he
              obtain ⟨l, hl⟩ := hcc b a
              rw [hl] at he
              cases he
          · intro hfalse
            exact absurd hfalse ha
  · rintro a c ha hane hb hgca
    subst ha
    simp only [getNewCommits, Bool.false_eq_true, if_false,
      isEmpty_false_of_ne_nil _ hane]
    rcases hb with h1 | h1 | h1
    · subst h1
      simp [hgca, Except.map]
    · subst h1
      simp [hgca, Except.map]
    · subst h1
      simp [hgca, Except.map, zeroSha]
  · rintro a b ha hane hb hbne hbz
    subst ha
    subst hb
    simp only [getNewCommits, Bool.false_eq_true, if_false,
      isEmpty_false_of_ne_nil _ hane]
    rw [if_neg (by
      simp [isEmpty_false_of_ne_nil _ hbne]
      exact hbz)]

/-- Witness for C8 with a one-commit provider over `κ := Nat`, at a push
payload whose `before` is the all-zero sentinel. -/
theorem claim_c8_push_commit_fetch_witness :
    (∀ s : Str, ∃ c, (fun _ : Str => (Except.ok 7 : Except Str Nat)) s = Except.ok c) ∧
    getNewCommits (fun _ => Except.ok [])
      (fun _ : Str => (Except.ok 7 : Except Str Nat))
      (fun _ _ => Except.ok []) none (some zeroSha) (some ("abc".toList)) false =
      Except.ok [7] :=
  ⟨fun s => ⟨7, rfl⟩,
    (claim_c8_push_commit_fetch (fun _ => Except.ok [])
      (fun _ : Str => (Except.ok 7 : Except Str Nat)) (fun _ _ => Except.ok [])
      none (some zeroSha) (some ("abc".toList))
      (fun s => ⟨7, rfl⟩) (fun b a => ⟨[], rfl⟩)).2.1
      ("abc".toList) 7 rfl (by decide) (Or.inr (Or.inr rfl)) rfl⟩

/-- Claim C9: with valid configuration and a readable version file, a
run triggered by an unsupported event kind (not a pull-request event and
not a push to `main`/`master`) sets the `changelog-updated` output to
`false` and returns cleanly, without fetching commits, generating a
narrative, building the changelog, or publishing. -/
theorem claim_c9_unsupported_event {κ : Type} (env : RunEnv) (ctx : GhContext)
    (deps : RunDeps κ) (k g vf ver : Str)
    (h1 : env.openrouterApiKey = some k) (h2 : env.githubToken = some g)
    (h3 : env.versionFile = some vf) (h4 : deps.readVersion vf = Except.ok ver)
    (h5 : ctx.eventName ≠ "pull_request".toList)
    (h6 : ¬(ctx.eventName = "push".toList ∧
      (ctx.refName = "refs/heads/main".toList ∨
        ctx.refName = "refs/heads/master".toList))) :
    run env ctx deps =
      ⟨none, [("changelog-updated".toList, "false".toList)],
        false, false, false, false⟩ := by
  have hb1 : (ctx.eventName == "pull_request".toList) = false :=
    beq_eq_false_iff_ne.mpr h5
  have hb2 : (ctx.eventName == "push".toList &&
      (ctx.refName == "refs/heads/main".toList ||
        ctx.refName == "refs/heads/master".toList)) = false := by
    by_cases hev : ctx.eventName = "push".toList
    · have hr1 : (ctx.refName == "refs/heads/main".toList) = false :=
        beq_eq_false_iff_ne.mpr (fun hc => h6 ⟨hev, Or.inl hc⟩)
      have hr2 : (ctx.refName == "refs/heads/master".toList) = false :=
        beq_eq_false_iff_ne.mpr (fun hc => h6 ⟨hev, Or.inr hc⟩)
      rw [hr1, hr2, Bool.or_false, Bool.and_false]
    · rw [beq_eq_false_iff_ne.mpr hev, Bool.false_and]
  simp only [run, h1, h2, h3, h4, hb1, hb2, Bool.not_false, Bool.and_self]
  rw [if_pos trivial]

/-- Witness for C9 at a `workflow_dispatch` event with valid
configuration. -/
theorem claim_c9_unsupported_event_witness :
    run (⟨some ("k".toList), some ("g".toList), none, none, some ("V".toList)⟩ : RunEnv)
      (⟨"workflow_dispatch".toList, "refs/heads/main".toList, none, none, none⟩ : GhContext)
      (⟨fun _ => Except.ok ("1.0.0".toList), fun _ => Except.ok ([] : List Unit),
        fun _ => Except.ok (), fun _ _ => Except.ok [], fun _ => [],
        none, fun _ _ _ => Except.ok [], fun _ _ _ => Except.ok 1,
        fun _ _ => Except.ok 1⟩ : RunDeps Unit) =
      ⟨none, [("changelog-updated".toList, "false".toList)],
        false, false, false, false⟩ :=
  claim_c9_unsupported_event _ _ _ ("k".toList) ("g".toList) ("V".toList)
    ("1.0.0".toList) rfl rfl rfl rfl (by decide) (by decide)

/-- Claim C10: with valid configuration, a supported trigger, and a
commit fetch that returns an empty list, the run sets the
`changelog-updated` output to `false` and returns without error; the
narrative generator, the changelog build and the publisher are never
reached. -/
theorem claim_c10_empty_commits {κ : Type} (env : RunEnv) (ctx : GhContext)
    (deps : RunDeps κ) (k g vf ver : Str)
    (h1 : env.openrouterApiKey = some k) (h2 : env.githubToken = some g)
    (h3 : env.versionFile = some vf) (h4 : deps.readVersion vf = Except.ok ver)
    (h5 : ctx.eventName = "pull_request".toList ∨
      (ctx.eventName = "push".toList ∧
        (ctx.refName = "refs/heads/main".toList ∨
          ctx.refName = "refs/heads/master".toList)))
    (h6 : getNewCommits deps.listPRCommits deps.getCommit deps.compareCommits
      ctx.prNumber ctx.pushBefore ctx.pushAfter
      (ctx.eventName == "pull_request".toList) = Except.ok []) :
    run env ctx deps =
      ⟨none, [("changelog-updated".toList, "false".toList)],
        true, false, false, false⟩ := by
  have hcond : (!(ctx.eventName == "pull_request".toList) &&
      !(ctx.eventName == "push".toList &&
        (ctx.refName == "refs/heads/main".toList ||
          ctx.refName == "refs/heads/master".toList))) = false := by
    rcases h5 with h | ⟨hev, hr⟩
    · rw [show (ctx.eventName == "pull_request".toList) = true from
        beq_iff_eq.mpr h, Bool.not_true, Bool.false_and]
    · have hB : (ctx.eventName == "push".toList &&
          (ctx.refName == "refs/heads/main".toList ||
            ctx.refName == "refs/heads/master".toList)) = true := by
        rw [show (ctx.eventName == "push".toList) = true from beq_iff_eq.mpr hev]
        rcases hr with hr | hr
        · rw [show (ctx.refName == "refs/heads/main".toList) = true from
            beq_iff_eq.mpr hr, Bool.true_or, Bool.true_and]
        · rw [show (ctx.refName == "refs/heads/master".toList) = true from
            beq_iff_eq.mpr hr, Bool.or_true, Bool.true_and]
      rw [hB, Bool.not_true, Bool.and_false]
  simp only [run, h1, h2, h3, h4, hcond, Bool.false_eq_true, if_false, h6]
  rfl

/-- Witness for C10 at a pull-request event whose PR has no commits. -/
theorem claim_c10_empty_commits_witness :
    run (⟨some ("k".toList), some ("g".toList), none, none, some ("V".toList)⟩ : RunEnv)
      (⟨"pull_request".toList, "refs/heads/feature".toList, some 5, none, none⟩ : GhContext)
      (⟨fun _ => Except.ok ("1.0.0".toList), fun _ => Except.ok ([] : List Unit),
        fun _ => Except.ok (), fun _ _ => Except.ok [], fun _ => [],
        none, fun _ _ _ => Except.ok [], fun _ _ _ => Except.ok 1,
        fun _ _ => Except.ok 1⟩ : RunDeps Unit) =
      ⟨none, [("changelog-updated".toList, "false".toList)],
        true, false, false, false⟩ :=
  claim_c10_empty_commits _ _ _ ("k".toList) ("g".toList) ("V".toList)
    ("1.0.0".toList) rfl rfl rfl rfl (Or.inl (by decide)) rfl

/-- Claim C3: for a document whose lines split into a span `aLines`
(section A and anything before it, with no line matching the header of
label `L`), section B's header line `## L`, B's body, and the remaining
sections starting at C's header (or nothing when B is last), merging an
entry for label `L` replaces exactly B's span with the trimmed entry
plus two newlines: every byte before B's header (the joined `aLines`
with its terminating newline) and every byte from C's header onward (the
joined `post`) is preserved unchanged, and when B is the last section
the document ends with exactly the two appended newlines. -/
theorem claim_c3_section_isolation (aLines bBody post : List Str) (L E : Str)
    (hnl : ∀ l ∈ aLines ++ ("## ".toList ++ L) :: bBody ++ post, '\n' ∉ l)
    (hpre : ∀ l ∈ aLines, lineMatchesVersionHeader L l = false)
    (hbody : ∀ l ∈ bBody, ("## ".toList).isPrefixOf l = false)
    (hpost : post = [] ∨
      ∃ hC cs, post = hC :: cs ∧ ("## ".toList).isPrefixOf hC = true)
    (hver : extractEntryVersion E = some L) (hL : L ≠ []) :
    buildChangelogContent
        (some (joinLines (aLines ++ ("## ".toList ++ L) :: bBody ++ post))) E =
      joinLines aLines ++ (if aLines = [] then [] else ['\n']) ++ trimStr E ++
        "\n\n".toList ++ joinLines post :=
  build_replace_master aLines bBody post ("## ".toList ++ L) L E hnl hpre
    (lineMatches_self L) hbody hpost hver hL

/-- Witness for C3: sections 2.0.0 (A), 1.5.0 (B), 1.0.0 (C); the entry
replaces the middle section. -/
theorem claim_c3_section_isolation_witness :
    extractEntryVersion ("## 1.5.0\n\n- New middle content".toList) =
      some ("1.5.0".toList) ∧
    buildChangelogContent
        (some (joinLines
          (["# Changelog".toList, [], "## 2.0.0".toList, [], "- Version 2 feature".toList, []] ++
            ("## ".toList ++ "1.5.0".toList) ::
              [[], "- Old middle content".toList, []] ++
            ["## 1.0.0".toList, [], "- Initial release".toList])))
        ("## 1.5.0\n\n- New middle content".toList) =
      joinLines ["# Changelog".toList, [], "## 2.0.0".toList, [],
          "- Version 2 feature".toList, []] ++
        (if (["# Changelog".toList, [], "## 2.0.0".toList, [],
          "- Version 2 feature".toList, []] : List Str) = [] then [] else ['\n']) ++
        trimStr ("## 1.5.0\n\n- New middle content".toList) ++ "\n\n".toList ++
        joinLines ["## 1.0.0".toList, [], "- Initial release".toList] :=
  ⟨by decide,
    claim_c3_section_isolation
      ["# Changelog".toList, [], "## 2.0.0".toList, [],
        "- Version 2 feature".toList, []]
      [[], "- Old middle content".toList, []]
      ["## 1.0.0".toList, [], "- Initial release".toList]
      ("1.5.0".toList) ("## 1.5.0\n\n- New middle content".toList)
      (by decide) (by decide) (by decide)
      (Or.inr ⟨"## 1.0.0".toList, [[], "- Initial release".toList], rfl, by decide⟩)
      (by decide) (by decide)⟩

/-- Claim C5: when the document already contains a section whose header
line is exactly `## L` and the generated entry is headed `## L`, merging
the entry twice yields the same document as merging it once. -/
theorem claim_c5_replacement_idempotent (pre bBody post : List Str) (L E : Str)
    (teBody : List Str)
    (hnl : ∀ l ∈ pre ++ ("## ".toList ++ L) :: bBody ++ post, '\n' ∉ l)
    (hpre : ∀ l ∈ pre, lineMatchesVersionHeader L l = false)
    (hbody : ∀ l ∈ bBody, ("## ".toList).isPrefixOf l = false)
    (hpost : post = [] ∨
      ∃ p ps, post = p :: ps ∧ ("## ".toList).isPrefixOf p = true)
    (hver : extractEntryVersion E = some L) (hL : L ≠ [])
    (hE : splitLines (trimStr E) = ("## ".toList ++ L) :: teBody)
    (hteBody : ∀ l ∈ teBody, ("## ".toList).isPrefixOf l = false) :
    buildChangelogContent (some (buildChangelogContent
        (some (joinLines (pre ++ ("## ".toList ++ L) :: bBody ++ post))) E)) E =
      buildChangelogContent
        (some (joinLines (pre ++ ("## ".toList ++ L) :: bBody ++ post))) E := by
  have hnlE : ∀ l ∈ ("## ".toList ++ L) :: teBody, '\n' ∉ l := by
    intro l hl
    exact noNl_splitLines (trimStr E) l (by rw [hE]; exact hl)
  have h1 := build_replace_master pre bBody post ("## ".toList ++ L) L E hnl hpre
    (lineMatches_self L) hbody hpost hver hL
  rw [h1]
  rcases hpost with hpostnil | ⟨p, ps, hpp, hp⟩
  · subst hpostnil
    rw [replace_result_lines_of_post_nil pre E L teBody hE]
    have hnl2 : ∀ l ∈ pre ++ ("## ".toList ++ L) :: (teBody ++ [[], []]) ++ [],
        '\n' ∉ l := by
      intro l hl
      rcases List.mem_append.mp hl with h12 | h3
      · rcases List.mem_append.mp h12 with hA | hB
        · exact hnl l (List.mem_append_left _ (List.mem_append_left _ hA))
        · rcases List.mem_cons.mp hB with h | h
          · subst h
            exact hnlE _ (List.mem_cons_self _ _)
          · rcases List.mem_append.mp h with h4 | h4
            · exact hnlE l (List.mem_cons_of_mem _ h4)
            · rcases List.mem_cons.mp h4 with h5 | h5
              · subst h5
                simp
              · have h6 : l = [] := by simpa using h5
                subst h6
                simp
      · simp at h3
    have hbody2 : ∀ l ∈ teBody ++ [[], []],
        ("## ".toList).isPrefixOf l = false := by
      intro l hl
      rcases List.mem_append.mp hl with h | h
      · exact hteBody l h
      · rcases List.mem_cons.mp h with h2 | h2
        · subst h2
          decide
        · have h3 : l = [] := by simpa using h2
          subst h3
          decide
    rw [build_replace_master pre (teBody ++ [[], []]) [] ("## ".toList ++ L) L E
      hnl2 hpre (lineMatches_self L) hbody2 (Or.inl rfl) hver hL]
    exact replace_result_lines_of_post_nil pre E L teBody hE
  · subst hpp
    rw [replace_result_lines_of_post_cons pre p ps E L teBody hE]
    have hnl2 : ∀ l ∈ pre ++ ("## ".toList ++ L) :: (teBody ++ [[]]) ++ (p :: ps),
        '\n' ∉ l := by
      intro l hl
      rcases List.mem_append.mp hl with h12 | h3
      · rcases List.mem_append.mp h12 with hA | hB
        · exact hnl l (List.mem_append_left _ (List.mem_append_left _ hA))
        · rcases List.mem_cons.mp hB with h | h
          · subst h
            exact hnlE _ (List.mem_cons_self _ _)
          · rcases List.mem_append.mp h with h4 | h4
            · exact hnlE l (List.mem_cons_of_mem _ h4)
            · have h5 : l = [] := by simpa using h4
              subst h5
              simp
      · exact hnl l (List.mem_append_right _ h3)
    have hbody2 : ∀ l ∈ teBody ++ [[]],
        ("## ".toList).isPrefixOf l = false := by
      intro l hl
      rcases List.mem_append.mp hl with h | h
      · exact hteBody l h
      · have h3 : l = [] := by simpa using h
        subst h3
        decide
    rw [build_replace_master pre (teBody ++ [[]]) (p :: ps) ("## ".toList ++ L)
      L E hnl2 hpre (lineMatches_self L) hbody2 (Or.inr ⟨p, ps, rfl, hp⟩) hver hL]
    exact replace_result_lines_of_post_cons pre p ps E L teBody hE

/-- Witness for C5: a document with sections 1.0.0 then 0.9.0 and an
entry for 1.0.0, merged twice. -/
theorem claim_c5_replacement_idempotent_witness :
    extractEntryVersion ("## 1.0.0\n\n- Feature B".toList) =
      some ("1.0.0".toList) ∧
    buildChangelogContent (some (buildChangelogContent
        (some (joinLines
          (["# Changelog".toList, []] ++ ("## ".toList ++ "1.0.0".toList) ::
            [[], "- Feature A".toList, []] ++ ["## 0.9.0".toList, [], "- Old".toList])))
        ("## 1.0.0\n\n- Feature B".toList))) ("## 1.0.0\n\n- Feature B".toList) =
      buildChangelogContent
        (some (joinLines
          (["# Changelog".toList, []] ++ ("## ".toList ++ "1.0.0".toList) ::
            [[], "- Feature A".toList, []] ++ ["## 0.9.0".toList, [], "- Old".toList])))
        ("## 1.0.0\n\n- Feature B".toList) :=
  ⟨by decide,
    claim_c5_replacement_idempotent
      ["# Changelog".toList, []]
      [[], "- Feature A".toList, []]
      ["## 0.9.0".toList, [], "- Old".toList]
      ("1.0.0".toList) ("## 1.0.0\n\n- Feature B".toList)
      [[], "- Feature B".toList]
      (by decide) (by decide) (by decide)
      (Or.inr ⟨"## 0.9.0".toList, [[], "- Old".toList], rfl, by decide⟩)
      (by decide) (by decide) (by decide) (by decide)⟩

/-- Claim C4, counterexample: for the document `"hello"` (no title
line, no section header) and the well-formed entry
`"## 1.0.0\n\n- x"`, locating `1.0.0` after the merge returns the body
`"- x\n\nhello"`, not the entry's trimmed body `"- x"`. -/
theorem claim_c4_counterexample :
    extractVersionSection
        (buildChangelogContent (some ("hello".toList)) ("## 1.0.0\n\n- x".toList))
        ("1.0.0".toList) =
      ExtractResult.found ("- x\n\nhello".toList) ∧
    ExtractResult.found ("- x\n\nhello".toList) ≠
      ExtractResult.found (trimStr ("- x".toList)) := by
  constructor
  · decide
  · decide

/-- Claim C4 (amended): for every document that is absent, blank, or
well-formed (title line, blank lines, then sections — or section-led
with no title line), and every well-formed generated entry headed
`## L` whose body contains no sibling section header, locating `L` in
the merged document succeeds and returns exactly the entry's trimmed
body. -/
theorem claim_c4_round_trip (existing : Option Str) (E L : Str)
    (teBody : List Str)
    (hver : extractEntryVersion E = some L) (hL : L ≠ [])
    (hE : splitLines (trimStr E) = ("## ".toList ++ L) :: teBody)
    (hteBody : ∀ l ∈ teBody, ("## ".toList).isPrefixOf l = false)
    (hdoc : existing = none ∨ trimStr (existing.getD []) = [] ∨
      WfDocLines (splitLines (existing.getD []))) :
    extractVersionSection (buildChangelogContent existing E) L =
      ExtractResult.found (trimStr (joinLines teBody)) := by
  have hnlE : ∀ l ∈ ("## ".toList ++ L) :: teBody, '\n' ∉ l := by
    intro l hl
    exact noNl_splitLines (trimStr E) l (by rw [hE]; exact hl)
  have hTE : joinLines (("## ".toList ++ L) :: teBody) = trimStr E := by
    rw [← hE]
    exact joinLines_splitLines (trimStr E)
  by_cases hfresh : existing = none ∨ trimStr (existing.getD []) = []
  · rw [build_fresh existing E hfresh]
    exact extract_after_fresh_shape teBody L E hnlE hE hteBody hL
  · push_neg at hfresh
    obtain ⟨hnn, hnb0⟩ := hfresh
    rcases existing with _ | D
    · exact absurd rfl hnn
    · have hnb : trimStr D ≠ [] := by simpa using hnb0
      have hwf : WfDocLines (splitLines D) := by
        rcases hdoc with h | h | h
        · exact absurd h (by simp)
        · exact absurd (by simpa using h) hnb
        · simpa using h
      by_cases hcs : containsSub D ("## ".toList ++ L) = true
      · rcases hfindid : List.findIdx? (lineMatchesVersionHeader L)
            (splitLines D) with _ | i
        · rw [build_fallback_route D E L hnb hver hL hcs hfindid]
          rcases hwf with ⟨title, blanks, secs, hls, htl, hbl, hsc⟩ |
            ⟨hnot, s, ss, hls, hs⟩
          · have hnlD : ∀ l ∈ title :: blanks ++ secs, '\n' ∉ l := by
              intro l hl
              exact noNl_splitLines D l (by rw [hls]; exact hl)
            have hsecs : secs = [] ∨ ∃ s ss, secs = s :: ss ∧ trimStr s ≠ [] := by
              rcases hsc with h | ⟨s, ss, h1, h2⟩
              · exact Or.inl h
              · exact Or.inr ⟨s, ss, h1, trim_ne_nil_of_sectionStart s h2⟩
            have hDj : D = joinLines (title :: blanks ++ secs) := by
              rw [← hls]
              exact (joinLines_splitLines D).symm
            rw [hDj, spliceFallback_titled title blanks secs E hnlD htl hbl hsecs]
            exact extract_after_titled_insert title blanks secs teBody L E
              hnlD hnlE hTE htl hbl hsc hteBody hL
          · have hnlD : ∀ l ∈ s :: ss, '\n' ∉ l := by
              intro l hl
              exact noNl_splitLines D l (by rw [hls]; exact hl)
            rw [spliceFallback_notitle D E s ss hls hnot
              (trim_ne_nil_of_sectionStart s hs), hls]
            exact extract_after_head_insert teBody L E s ss hnlD hnlE hTE
              hs hteBody hL
        · obtain ⟨pre, y, post0, hdec, hlen, hpre0, hy⟩ :=
            findIdx?_decomp _ _ i hfindid
          have hnlD : ∀ l ∈ pre ++ y :: post0, '\n' ∉ l := by
            intro l hl
            exact noNl_splitLines D l (by rw [hdec]; exact hl)
          rcases hfind2 : List.findIdx? (fun l => ("## ".toList).isPrefixOf l)
              post0 with _ | j
          · have hb0 : ∀ l ∈ post0, ("## ".toList).isPrefixOf l = false :=
              List.findIdx?_eq_none_iff.mp hfind2
            have hDj : D = joinLines (pre ++ y :: post0 ++ []) := by
              rw [show (pre ++ y :: post0 ++ [] : List Str) =
                pre ++ y :: post0 from by simp, ← hdec]
              exact (joinLines_splitLines D).symm
            rw [hDj]
            rw [build_replace_master pre post0 [] y L E
              (by intro l hl; exact hnlD l (by simpa using hl))
              hpre0 hy hb0 (Or.inl rfl) hver hL]
            rw [replace_result_lines_of_post_nil pre E L teBody hE]
            rw [extract_found pre (teBody ++ [[], []]) [] ("## ".toList ++ L) L
              (by
                intro l hl
                rcases List.mem_append.mp hl with h12 | h3
                · rcases List.mem_append.mp h12 with hA | hB
                  · exact hnlD l (List.mem_append_left _ hA)
                  · rcases List.mem_cons.mp hB with h | h
                    · subst h
                      exact hnlE _ (List.mem_cons_self _ _)
                    · rcases List.mem_append.mp h with h4 | h4
                      · exact hnlE l (List.mem_cons_of_mem _ h4)
                      · rcases List.mem_cons.mp h4 with h5 | h5
                        · subst h5
                          simp
                        · have h6 : l = [] := by simpa using h5
                          subst h6
                          simp
                · simp at h3)
              hpre0 (lineMatches_self L)
              (by
                intro l hl
                rcases List.mem_append.mp hl with h | h
                · exact hteBody l h
                · rcases List.mem_cons.mp h with h2 | h2
                  · subst h2
                    decide
                  · have h3 : l = [] := by simpa using h2
                    subst h3
                    decide)
              (Or.inl rfl) hL]
            rw [trimStr_joinLines_append_blanks teBody [[], []] (by
              intro l hl
              rcases List.mem_cons.mp hl with h | h
              · subst h
                rfl
              · have h2 : l = [] := by simpa using h
                subst h2
                rfl)]
          · obtain ⟨mid, s2, rest2, hdec2, hlen2, hmid2, hs2⟩ :=
              findIdx?_decomp _ _ j hfind2
            subst hdec2
            have hDj : D = joinLines (pre ++ y :: mid ++ (s2 :: rest2)) := by
              rw [show (pre ++ y :: mid ++ (s2 :: rest2) : List Str) =
                pre ++ y :: (mid ++ s2 :: rest2) from by simp, ← hdec]
              exact (joinLines_splitLines D).symm
            rw [hDj]
            rw [build_replace_master pre mid (s2 :: rest2) y L E
              (by
                intro l hl
                apply hnlD l
                rw [show (pre ++ y :: (mid ++ s2 :: rest2) : List Str) =
                  pre ++ y :: mid ++ (s2 :: rest2) from by simp]
                exact hl)
              hpre0 hy hmid2 (Or.inr ⟨s2, rest2, rfl, hs2⟩) hver hL]
            rw [replace_result_lines_of_post_cons pre s2 rest2 E L teBody hE]
            rw [extract_found pre (teBody ++ [[]]) (s2 :: rest2)
              ("## ".toList ++ L) L
              (by
                intro l hl
                rcases List.mem_append.mp hl with h12 | h3
                · rcases List.mem_append.mp h12 with hA | hB
                  · exact hnlD l (List.mem_append_left _ hA)
                  · rcases List.mem_cons.mp hB with h | h
                    · subst h
                      exact hnlE _ (List.mem_cons_self _ _)
                    · rcases List.mem_append.mp h with h4 | h4
                      · exact hnlE l (List.mem_cons_of_mem _ h4)
                      · have h5 : l = [] := by simpa using h4
                        subst h5
                        simp
                · apply hnlD l
                  rw [show (pre ++ y :: (mid ++ s2 :: rest2) : List Str) =
                    pre ++ y :: mid ++ (s2 :: rest2) from by simp]
                  exact List.mem_append_right _ h3)
              hpre0 (lineMatches_self L)
              (by
                intro l hl
                rcases List.mem_append.mp hl with h | h
                · exact hteBody l h
                · have h3 : l = [] := by simpa using h
                  subst h3
                  decide)
              (Or.inr ⟨s2, rest2, rfl, hs2⟩) hL]
            rw [trimStr_joinLines_append_blanks teBody [[]] (by
              intro l hl
              have h2 : l = [] := by simpa using hl
              subst h2
              rfl)]
      · have hcsf : containsSub D ("## ".toList ++ L) = false := by
          cases hb : containsSub D ("## ".toList ++ L)
          · rfl
          · exact absurd hb hcs
        rw [build_insert_route D E hnb (fun v hv => Or.inr (by
          rw [hver] at hv
          injection hv with hlv
          rw [← hlv]
          exact hcsf))]
        rcases hwf with ⟨title, blanks, secs, hls, htl, hbl, hsc⟩ |
          ⟨hnot, s, ss, hls, hs⟩
        · have hnlD : ∀ l ∈ title :: blanks ++ secs, '\n' ∉ l := by
            intro l hl
            exact noNl_splitLines D l (by rw [hls]; exact hl)
          have hsecs : secs = [] ∨ ∃ s ss, secs = s :: ss ∧ trimStr s ≠ [] := by
            rcases hsc with h | ⟨s, ss, h1, h2⟩
            · exact Or.inl h
            · exact Or.inr ⟨s, ss, h1, trim_ne_nil_of_sectionStart s h2⟩
          have hDj : D = joinLines (title :: blanks ++ secs) := by
            rw [← hls]
            exact (joinLines_splitLines D).symm
          rw [hDj, insertSection_titled title blanks secs E hnlD htl hbl hsecs]
          exact extract_after_titled_insert title blanks secs teBody L E
            hnlD hnlE hTE htl hbl hsc hteBody hL
        · rw [insertSection_notitle D E hnot]
          exact extract_after_prepend D teBody L E s ss hnlE hE hteBody hL hls hs

/-- Witness for the amended C4: the document
`"# Changelog\n\n## 1.0.0\n\n- Previous release"` and the entry
`"## 2.0.0\n\n- New feature"`. -/
theorem claim_c4_round_trip_witness :
    extractEntryVersion ("## 2.0.0\n\n- New feature".toList) =
      some ("2.0.0".toList) ∧
    extractVersionSection
        (buildChangelogContent
          (some ("# Changelog\n\n## 1.0.0\n\n- Previous release".toList))
          ("## 2.0.0\n\n- New feature".toList))
        ("2.0.0".toList) =
      ExtractResult.found (trimStr (joinLines [[], "- New feature".toList])) :=
  ⟨by decide,
    claim_c4_round_trip
      (some ("# Changelog\n\n## 1.0.0\n\n- Previous release".toList))
      ("## 2.0.0\n\n- New feature".toList) ("2.0.0".toList)
      [[], "- New feature".toList]
      (by decide) (by decide) (by decide) (by decide)
      (Or.inr (Or.inr (Or.inl
        ⟨"# Changelog".toList, [[]],
          ["## 1.0.0".toList, [], "- Previous release".toList],
          by decide, by decide, by decide,
          Or.inr ⟨"## 1.0.0".toList, [[], "- Previous release".toList],
            by decide, by decide⟩⟩)))⟩

end ChangelogAction
